import Mathlib

/-!
Verification of the learnos kernel's memory-management and ACPI subsystems.

The Rust sources are shallowly embedded: machine integers become `Nat` with
explicit masking/modulo where overflow or truncation matters, raw memory
becomes explicit byte lists or functions from addresses to values, and
fallible or panicking code returns `Option` / explicit outcome types.
-/

namespace Learnos

/-! ## ACPI checksum and table validation (acpi/src/util.rs, acpi/src/lib.rs)

A table in memory is modelled as the list of bytes starting at the table's
address (each entry < 256). -/

/-- Embeds `acpi_checksum` (acpi/src/util.rs): fold of `u8::wrapping_add`
over the data bytes, starting from 0. -/
def acpiChecksum (data : List Nat) : Nat :=
  data.foldl (fun acc b => (acc + b) % 256) 0

/-- Byte of a table image at offset `i` (reads of a packed struct field). -/
def byteAt (data : List Nat) (i : Nat) : Nat := data.getD i 0

/-- Embeds `SdtHeader::length` (acpi/src/lib.rs): the little-endian `u32`
at offset 4 of the header (after the 4-byte signature). -/
def sdtLength (data : List Nat) : Nat :=
  byteAt data 4 + 256 * byteAt data 5 + 65536 * byteAt data 6 +
    16777216 * byteAt data 7

/-- Embeds `AnySdt::is_valid` (acpi/src/lib.rs): the checksum over the first
`length()` bytes must be zero. -/
def anySdtIsValid (data : List Nat) : Bool :=
  acpiChecksum (data.take (sdtLength data)) == 0

/-- Embeds `Rsdp`'s `revision` field (acpi/src/rsdp.rs): byte offset 15
(signature 8 + checksum 1 + oem id 6). -/
def rsdpRevision (data : List Nat) : Nat := byteAt data 15

/-- Embeds `RsdpV2::length` (acpi/src/rsdp.rs): little-endian `u32` at
offset 20 (directly after the 20-byte v1 part). -/
def rsdpV2Length (data : List Nat) : Nat :=
  byteAt data 20 + 256 * byteAt data 21 + 65536 * byteAt data 22 +
    16777216 * byteAt data 23

/-- Embeds `Rsdp::as_v2` (acpi/src/rsdp.rs): the condition is literally
`self.revision() != 2`; inside that branch the extended checksum over
`RsdpV2::length()` bytes is tested. Returns `true` iff the Rust function
returns `Some`. -/
def rsdpAsV2 (data : List Nat) : Bool :=
  if rsdpRevision data ≠ 2 then
    acpiChecksum (data.take (rsdpV2Length data)) == 0
  else false

/-! ### RSDT / XSDT entry counts and pointer iteration
(learnos_kernel/src/acpi/rsdt.rs, learnos_kernel/src/acpi/xsdt.rs) -/

/-- Size in bytes of `SdtHeader` (packed: 4+4+1+1+6+8+4+4+4). -/
def sdtHeaderSize : Nat := 36

/-- Embeds `Rsdt::num_entries`: `(length - size_of::<SdtHeader>()) / size_of::<u32>()`. -/
def rsdtNumEntries (len : Nat) : Nat := (len - sdtHeaderSize) / 4

/-- Embeds `Xsdt::num_entries` as written in the source:
`(self.length() - mem::size_of::<SdtHeader>()) / mem::size_of::<u32>()` —
note the divisor is `size_of::<u32>() = 4`, although the table stores
64-bit pointers. -/
def xsdtNumEntries (len : Nat) : Nat := (len - sdtHeaderSize) / 4

/-- Embeds the `XsdtPointerIter` / `RsdtPointerIter` state: the `current`
and `last` raw pointers, counted in entry strides. -/
structure PtrIter where
  current : Nat
  last : Nat
deriving DecidableEq, Repr

/-- Embeds `XsdtPointerIter::next` / `RsdtPointerIter::next`: yields the
current entry index and advances while `current < last`; once
`current >= last` it returns `None` (and keeps the state), so the iterator
is fused. -/
def ptrIterNext (it : PtrIter) : Option Nat × PtrIter :=
  if it.last ≤ it.current then (none, it)
  else (some it.current, ⟨it.current + 1, it.last⟩)

/-- Number of `Some` results produced by iterating `ptrIterNext` at most
`fuel` times. -/
def ptrIterCount (it : PtrIter) : Nat → Nat
  | 0 => 0
  | fuel + 1 =>
    match ptrIterNext it with
    | (none, _) => 0
    | (some _, it2) => 1 + ptrIterCount it2 fuel

/-! ## Page-table entry bit fields
(learnos_kernel/src/memory/vmm/page_tables.rs)

The 64-bit entry is a `Nat` (kept < 2^64 by the operations). The masked
bit operations of the source are written with division/modulo arithmetic:
`x & mask` for a mask covering bits `lo..hi` (inclusive) is
`x % 2^(hi+1) / 2^lo * 2^lo`, and clearing those bits is
`x % 2^lo + x / 2^(hi+1) * 2^(hi+1)`. The constants below mirror
`ADDR_MASK = 0x000F_FFFF_FFFF_F000` (bits 12..51),
`USER_DATA_HIGH_MASK = 0x7FF8_0000_0000_0000` (bits 51..62 — note that
this constant includes bit 51) and `USER_DATA_LOW_MASK = 0xE00`
(bits 9..11). -/

/-- Embeds `PageTableEntry::new()`: the zero entry. -/
def pteNew : Nat := 0

/-- Embeds `PageTableEntry::flags()`: the low byte. -/
def pteFlags (e : Nat) : Nat := e % 256

/-- Embeds `PageTableEntry::set_flags`: replace the low byte. -/
def pteSetFlags (e f : Nat) : Nat := e / 256 * 256 + f % 256

/-- Embeds `PageTableEntry::base()`: `self.0 & ADDR_MASK`, i.e. bits 12..51. -/
def pteBase (e : Nat) : Nat := e % 2 ^ 52 / 4096 * 4096

/-- Embeds `PageTableEntry::set_base`: `(self.0 & !ADDR_MASK) | (addr & ADDR_MASK)`. -/
def pteSetBase (e a : Nat) : Nat :=
  (e % 4096 + e / 2 ^ 52 * 2 ^ 52) + a % 2 ^ 52 / 4096 * 4096

/-- Embeds `PageTableEntry::user_data()`:
`((e & USER_DATA_HIGH_MASK) >> 49) | ((e & USER_DATA_LOW_MASK) >> 9)`.
The two shifted fields overlap at bit 2, so the combination is a genuine
bitwise or. -/
def pteUserData (e : Nat) : Nat :=
  Nat.lor (e % 2 ^ 63 / 2 ^ 51 * 4) (e % 2 ^ 12 / 2 ^ 9)

/-- Embeds `PageTableEntry::set_user_data`: clear both user-data masks
(keeping bits 0..8, 12..50 and 63), then or in
`(u << 49) & USER_DATA_HIGH_MASK` and `(u << 9) & USER_DATA_LOW_MASK`
(the three parts occupy disjoint bits, so the or is addition). -/
def pteSetUserData (e u : Nat) : Nat :=
  (e % 2 ^ 9 + e / 2 ^ 12 % 2 ^ 39 * 2 ^ 12 + e / 2 ^ 63 * 2 ^ 63)
    + (u * 2 ^ 49) % 2 ^ 63 / 2 ^ 51 * 2 ^ 51
    + (u * 2 ^ 9) % 2 ^ 12 / 2 ^ 9 * 2 ^ 9

/-! ## Page-frame bookkeeping table (kmem/src/physical/mgmt.rs)

The table is the list of per-frame states; the raw pointer arithmetic of
the source becomes list indexing. A `none` result models a failed
`assert!` (a fatal fault). -/

inductive PageFrameState where
  | free
  | allocated
  | reserved
deriving DecidableEq, Repr

/-- Embeds the loop of `PageFrameTable::mark_allocated` over the region's
`n` remaining indices starting at `i`: each step asserts the entry is not
`Reserved` ("cannot allocate reserved region") and then sets it to
`Allocated`. -/
def markAllocatedGo (tbl : List PageFrameState) (i : Nat) : Nat → Option (List PageFrameState)
  | 0 => some tbl
  | n + 1 =>
    if tbl.getD i .free = .reserved then none
    else markAllocatedGo (tbl.set i .allocated) (i + 1) n

/-- Embeds `PageFrameTable::mark_allocated`: `region_iter_mut` first asserts
`region.start < length && region.end <= length`, then the loop runs over
`start..end`. -/
def markAllocated (tbl : List PageFrameState) (start stop : Nat) :
    Option (List PageFrameState) :=
  if start < tbl.length ∧ stop ≤ tbl.length then markAllocatedGo tbl start (stop - start)
  else none

/-- Embeds the loop of `PageFrameTable::mark_reserved`: each step asserts
the entry is not `Allocated` ("cannot reserve allocated region") and then
sets it to `Reserved`. -/
def markReservedGo (tbl : List PageFrameState) (i : Nat) : Nat → Option (List PageFrameState)
  | 0 => some tbl
  | n + 1 =>
    if tbl.getD i .free = .allocated then none
    else markReservedGo (tbl.set i .reserved) (i + 1) n

/-- Embeds `PageFrameTable::mark_reserved` (same bounds assertion as
`mark_allocated`). -/
def markReserved (tbl : List PageFrameState) (start stop : Nat) :
    Option (List PageFrameState) :=
  if start < tbl.length ∧ stop ≤ tbl.length then markReservedGo tbl start (stop - start)
  else none

/-! ## Bump allocator (kmem/src/physical/alloc/bump.rs) -/

/-- Embeds `PageFrameRegion` (kmem/src/physical/mod.rs): a half-open frame
range. The source field `end` is called `stop` here (`end` is a Lean
keyword). -/
structure PFRegion where
  start : Nat
  stop : Nat
deriving DecidableEq, Repr

/-- Embeds `PageFrameRegion::is_empty`: `start >= end`. -/
def PFRegion.isEmpty (r : PFRegion) : Bool := r.stop ≤ r.start

/-- Embeds `BumpAllocator`: the current candidate region plus the remaining
region iterator (a list consumed from the front). -/
structure Bump where
  current : Option PFRegion
  regions : List PFRegion
deriving DecidableEq, Repr

/-- Embeds `BumpAllocator::new`: pull the first region from the iterator. -/
def Bump.new : List PFRegion → Bump
  | [] => ⟨none, []⟩
  | r :: rest => ⟨some r, rest⟩

/-- Scans the region iterator for the first non-empty region, consuming every
element inspected (the behaviour of `Iterator::find` on `&mut self.regions`). -/
def findNonEmptyList : List PFRegion → Option PFRegion × List PFRegion
  | [] => (none, [])
  | r :: rest => if r.isEmpty then findNonEmptyList rest else (some r, rest)

/-- Embeds the `find` over `current.iter().cloned().chain(&mut regions)` in
`BumpAllocator::alloc`. -/
def allocScan (cur : Option PFRegion) (rs : List PFRegion) :
    Option PFRegion × List PFRegion :=
  match cur with
  | some r => if r.isEmpty then findNonEmptyList rs else (some r, rs)
  | none => findNonEmptyList rs

/-- Embeds `BumpAllocator::alloc`: refresh `current_region` to the first
non-empty candidate, then return its start frame and bump the start. -/
def Bump.alloc (a : Bump) : Option Nat × Bump :=
  match allocScan a.current a.regions with
  | (none, rest) => (none, ⟨none, rest⟩)
  | (some r, rest) => (some r.start, ⟨some ⟨r.start + 1, r.stop⟩, rest⟩)

/-- Embeds the `find_map` of `BumpAllocator::reserve_until` over the list
part of the chain: keep the first region with `end > reserved`, clamping its
start to `max(start, reserved)`. -/
def reserveScanList (t : Nat) : List PFRegion → Option PFRegion × List PFRegion
  | [] => (none, [])
  | r :: rest => if t < r.stop then (some ⟨max r.start t, r.stop⟩, rest)
                 else reserveScanList t rest

/-- Embeds `BumpAllocator::reserve_until`: the `find_map` over
`current.iter().cloned().chain(&mut regions)`. -/
def Bump.reserveUntil (a : Bump) (t : Nat) : Bump :=
  match a.current with
  | some r =>
    if t < r.stop then ⟨some ⟨max r.start t, r.stop⟩, a.regions⟩
    else
      match reserveScanList t a.regions with
      | (c, rest) => ⟨c, rest⟩
  | none =>
    match reserveScanList t a.regions with
    | (c, rest) => ⟨c, rest⟩

/-- Embeds `BumpAllocator::free`: the body is unconditionally
`panic!("A bump allocator cannot free")`; `none` models the fault. -/
def Bump.freeOp (_a : Bump) (_frame : Nat) : Option Bump := none

/-- An operation performed on a bump allocator. -/
inductive BumpOp where
  | alloc
  | reserveUntil (t : Nat)
deriving DecidableEq, Repr

/-- Runs a sequence of operations, recording each operation together with the
frame returned (allocations only). -/
def runBump (a : Bump) : List BumpOp → List (BumpOp × Option Nat)
  | [] => []
  | BumpOp.alloc :: ops =>
    match a.alloc with
    | (r, a2) => (BumpOp.alloc, r) :: runBump a2 ops
  | BumpOp.reserveUntil t :: ops =>
    (BumpOp.reserveUntil t, none) :: runBump (a.reserveUntil t) ops

/-- The frames returned by the allocations of a trace, in order. -/
def allocResults (tr : List (BumpOp × Option Nat)) : List Nat :=
  tr.filterMap fun p =>
    match p with
    | (BumpOp.alloc, some f) => some f
    | _ => none

/-- Regions delivered in ascending, non-overlapping order: each region ends
at or before the next one starts. -/
def RegionsSorted (rs : List PFRegion) : Prop :=
  List.Pairwise (fun r s => r.stop ≤ s.start) rs

/-! ## List helper lemmas -/

lemma getD_set_ne {α : Type} : ∀ (l : List α) (i j : Nat) (a d : α), i ≠ j →
    (l.set i a).getD j d = l.getD j d := by
  intro l
  induction l with
  | nil => intro i j a d _; rfl
  | cons x t ih =>
    intro i j a d h
    cases i with
    | zero =>
      cases j with
      | zero => exact absurd rfl h
      | succ j => simp [List.getD_cons_succ]
    | succ i =>
      cases j with
      | zero => simp [List.getD_cons_zero]
      | succ j =>
        simp only [List.set, List.getD_cons_succ]
        exact ih i j a d (by omega)

lemma sum_set_add : ∀ (l : List Nat) (i b : Nat), i < l.length →
    (l.set i b).sum + l.getD i 0 = l.sum + b := by
  intro l
  induction l with
  | nil => intro i b h; simp at h
  | cons x t ih =>
    intro i b h
    cases i with
    | zero => simp [List.getD_cons_zero]; omega
    | succ i =>
      simp only [List.set, List.sum_cons, List.getD_cons_succ]
      have := ih i b (by simpa using h)
      omega

lemma take_set_comm {α : Type} : ∀ (l : List α) (n i : Nat) (a : α), i < n →
    (l.set i a).take n = (l.take n).set i a := by
  intro l
  induction l with
  | nil => intro n i a _; simp
  | cons x t ih =>
    intro n i a h
    cases n with
    | zero => omega
    | succ n =>
      cases i with
      | zero => simp [List.take]
      | succ i =>
        simp only [List.set, List.take]
        rw [ih n i a (by omega)]

lemma getD_take {α : Type} : ∀ (l : List α) (n i : Nat) (d : α), i < n →
    (l.take n).getD i d = l.getD i d := by
  intro l
  induction l with
  | nil => intro n i d _; simp
  | cons x t ih =>
    intro n i d h
    cases n with
    | zero => omega
    | succ n =>
      cases i with
      | zero => simp [List.take]
      | succ i =>
        simp only [List.take, List.getD_cons_succ]
        exact ih n i d (by omega)

lemma getD_lt_of_forall (l : List Nat) (i : Nat) (h : i < l.length)
    (hb : ∀ x ∈ l, x < 256) : l.getD i 0 < 256 := by
  have hm : l.getD i 0 ∈ l := by
    rw [List.getD_eq_getElem l 0 h]
    exact List.getElem_mem h
  exact hb _ hm

/-! ## Checksum facts -/

lemma acpiChecksum_foldl : ∀ (l : List Nat) (a : Nat), a < 256 →
    l.foldl (fun acc b => (acc + b) % 256) a = (a + l.sum) % 256 := by
  intro l
  induction l with
  | nil => intro a h; simp [Nat.mod_eq_of_lt h]
  | cons x t ih =>
    intro a h
    simp only [List.foldl_cons, List.sum_cons]
    rw [ih _ (Nat.mod_lt _ (by norm_num))]
    rw [Nat.mod_add_mod]
    ring_nf

lemma acpiChecksum_eq_sum (l : List Nat) : acpiChecksum l = l.sum % 256 := by
  simpa using acpiChecksum_foldl l 0 (by norm_num)

/-! ## Claim theorems: ACPI and page-table entries -/

/-- C3: the claim says `Xsdt::num_entries()` equals
`(length - size_of(SdtHeader)) / 8` (64-bit pointers). The code divides by
`size_of::<u32>() = 4` instead: for an XSDT of length 44 holding exactly one
64-bit pointer it reports 2 entries, and the pointer iterator accordingly
yields 2 addresses instead of 1. -/
theorem xsdtEntryCountBug :
    xsdtNumEntries 44 = 2 ∧ (44 - sdtHeaderSize) / 8 = 1 ∧
    ptrIterCount ⟨0, xsdtNumEntries 44⟩ 10 = 2 ∧
    rsdtNumEntries 44 = 2 := by decide

/-- C4: the claim says the bit ranges of a `PageTableEntry` are disjoint and
`set_user_data` touches only bits 9-11 and 52-62. In the code
`USER_DATA_HIGH_MASK = 0x7FF8_0000_0000_0000` also covers bit 51, which
belongs to the 40-bit frame address (bits 12-51): `set_user_data` clears an
address bit 51 previously written by `set_base`, and writing user data 4
sets bit 51. This contradicts the claimed disjointness and the code's own
comment (bits `[62..52]`). -/
theorem pteUserDataOverlapsBase :
    pteBase (pteSetBase pteNew 0x0008000000000000) = 0x0008000000000000 ∧
    pteBase (pteSetUserData (pteSetBase pteNew 0x0008000000000000) 0) = 0 ∧
    pteSetUserData pteNew 4 = 2 ^ 51 + 2 ^ 11 := by decide

/-- C9: the claim says `Rsdp::as_v2` returns the V2 view exactly when
`revision >= 2` and the extended checksum is valid. The code tests
`revision != 2`: on a fully valid revision-2 RSDP it returns `None`, and on
a revision-1 image whose extended checksum happens to be zero it returns
`Some`. -/
theorem rsdpAsV2RevisionBug :
    rsdpAsV2
        [0, 0, 0, 0, 0, 0, 0, 0, 0, 0, 0, 0, 0, 0, 0, 2, 0, 0, 0, 0, 36, 0,
          0, 0, 0, 0, 0, 0, 0, 0, 0, 0, 218, 0, 0, 0] = false ∧
    2 ≤ rsdpRevision
        [0, 0, 0, 0, 0, 0, 0, 0, 0, 0, 0, 0, 0, 0, 0, 2, 0, 0, 0, 0, 36, 0,
          0, 0, 0, 0, 0, 0, 0, 0, 0, 0, 218, 0, 0, 0] ∧
    acpiChecksum
        (List.take
          (rsdpV2Length
            [0, 0, 0, 0, 0, 0, 0, 0, 0, 0, 0, 0, 0, 0, 0, 2, 0, 0, 0, 0, 36,
              0, 0, 0, 0, 0, 0, 0, 0, 0, 0, 0, 218, 0, 0, 0])
          [0, 0, 0, 0, 0, 0, 0, 0, 0, 0, 0, 0, 0, 0, 0, 2, 0, 0, 0, 0, 36, 0,
            0, 0, 0, 0, 0, 0, 0, 0, 0, 0, 218, 0, 0, 0]) = 0 ∧
    rsdpAsV2
        [0, 0, 0, 0, 0, 0, 0, 0, 0, 0, 0, 0, 0, 0, 0, 1, 0, 0, 0, 0, 36, 0,
          0, 0, 0, 0, 0, 0, 0, 0, 0, 0, 219, 0, 0, 0] = true ∧
    rsdpRevision
        [0, 0, 0, 0, 0, 0, 0, 0, 0, 0, 0, 0, 0, 0, 0, 1, 0, 0, 0, 0, 36, 0,
          0, 0, 0, 0, 0, 0, 0, 0, 0, 0, 219, 0, 0, 0] < 2 := by decide

/-- C10: `mark_allocated`/`mark_reserved` hit the bounds assertion
`region.start < length` whenever the region starts at or past the table's
length — even for an empty region with `start = end = length` — while an
empty region starting inside the table is a no-op. -/
theorem markBoundsAssert :
    (∀ (tbl : List PageFrameState) (s e : Nat), tbl.length ≤ s →
      markAllocated tbl s e = none ∧ markReserved tbl s e = none)
    ∧ (∀ (tbl : List PageFrameState) (s : Nat), s < tbl.length →
      markAllocated tbl s s = some tbl ∧ markReserved tbl s s = some tbl) := by
  constructor
  · intro tbl s e h
    constructor
    · simp only [markAllocated]
      rw [if_neg]
      omega
    · simp only [markReserved]
      rw [if_neg]
      omega
  · intro tbl s h
    constructor
    · simp only [markAllocated]
      rw [if_pos ⟨h, Nat.le_of_lt h⟩, Nat.sub_self]
      rfl
    · simp only [markReserved]
      rw [if_pos ⟨h, Nat.le_of_lt h⟩, Nat.sub_self]
      rfl

/-- Witness for C10 at a concrete one-entry table. -/
theorem markBoundsAssertWitness :
    (([PageFrameState.free] : List PageFrameState).length ≤ 1 ∧
      markAllocated [PageFrameState.free] 1 1 = none ∧
      markReserved [PageFrameState.free] 1 1 = none) ∧
    (0 < ([PageFrameState.free] : List PageFrameState).length ∧
      markAllocated [PageFrameState.free] 0 0 = some [PageFrameState.free] ∧
      markReserved [PageFrameState.free] 0 0 = some [PageFrameState.free]) :=
  ⟨⟨by decide, (markBoundsAssert.1 [PageFrameState.free] 1 1 (by decide)).1,
      (markBoundsAssert.1 [PageFrameState.free] 1 1 (by decide)).2⟩,
    ⟨by decide, (markBoundsAssert.2 [PageFrameState.free] 0 (by decide)).1,
      (markBoundsAssert.2 [PageFrameState.free] 0 (by decide)).2⟩⟩

/-- Counterexample for C8: a valid `AnySdt` image whose length field's low
byte is changed from 9 to 10 (a single-byte change) and which is still
valid afterwards, because the checksum is now summed over one more byte. -/
theorem checksumLengthByteMutation :
    anySdtIsValid [0, 0, 0, 0, 9, 0, 0, 0, 247, 255] = true ∧
    List.getD [0, 0, 0, 0, 9, 0, 0, 0, 247, 255] 4 0 ≠ 10 ∧
    anySdtIsValid (List.set [0, 0, 0, 0, 9, 0, 0, 0, 247, 255] 4 10) = true := by
  decide

/-- C8 (amended): a table is valid iff the sum of its first `length()`
bytes mod 256 is zero; and changing a single byte inside those first
`length()` bytes to a different value makes a valid table invalid,
provided the byte is not part of the length field itself (offsets 4-7) —
a change to the length field can leave the table valid, as the
counterexample shows. -/
theorem checksumValidIffAndMutation :
    (∀ data : List Nat,
      anySdtIsValid data = true ↔ (data.take (sdtLength data)).sum % 256 = 0)
    ∧ (∀ (data : List Nat) (i b : Nat), (∀ x ∈ data, x < 256) → b < 256 →
        i < sdtLength data → sdtLength data ≤ data.length → ¬(4 ≤ i ∧ i < 8) →
        data.getD i 0 ≠ b → anySdtIsValid data = true →
        anySdtIsValid (data.set i b) = false) := by
  constructor
  · intro data
    simp [anySdtIsValid, acpiChecksum_eq_sum]
  · intro data i b hbytes hb hiL hLlen hifield hneq hvalid
    have hlen : sdtLength (data.set i b) = sdtLength data := by
      simp only [sdtLength, byteAt]
      rw [getD_set_ne data i 4 b 0 (by omega), getD_set_ne data i 5 b 0 (by omega),
        getD_set_ne data i 6 b 0 (by omega), getD_set_ne data i 7 b 0 (by omega)]
    have hidata : i < data.length := Nat.lt_of_lt_of_le hiL hLlen
    have hold : data.getD i 0 < 256 := getD_lt_of_forall data i hidata hbytes
    have hsum : (data.take (sdtLength data)).sum % 256 = 0 := by
      simpa [anySdtIsValid, acpiChecksum_eq_sum] using hvalid
    have htklen : (data.take (sdtLength data)).length = sdtLength data := by
      simp [Nat.min_eq_left hLlen]
    have hkey : ((data.take (sdtLength data)).set i b).sum
        + (data.take (sdtLength data)).getD i 0
        = (data.take (sdtLength data)).sum + b :=
      sum_set_add _ i b (by omega)
    have hgd : (data.take (sdtLength data)).getD i 0 = data.getD i 0 :=
      getD_take data (sdtLength data) i 0 hiL
    have hfin : ((data.take (sdtLength data)).set i b).sum % 256 ≠ 0 := by
      intro hzero
      rw [hgd] at hkey
      omega
    simp only [anySdtIsValid, acpiChecksum_eq_sum, hlen]
    rw [take_set_comm data (sdtLength data) i b hiL]
    simp [hfin]

/-- Witness for C8's amended statement: mutating the non-length byte at
offset 8 of a concrete valid table invalidates it. -/
theorem checksumValidIffAndMutationWitness :
    ((∀ x ∈ [0, 0, 0, 0, 9, 0, 0, 0, 247], x < 256) ∧ (0 : Nat) < 256 ∧
      8 < sdtLength [0, 0, 0, 0, 9, 0, 0, 0, 247] ∧
      sdtLength [0, 0, 0, 0, 9, 0, 0, 0, 247]
        ≤ List.length [0, 0, 0, 0, 9, 0, 0, 0, 247] ∧
      ¬(4 ≤ 8 ∧ 8 < 8) ∧
      List.getD [0, 0, 0, 0, 9, 0, 0, 0, 247] 8 0 ≠ 0 ∧
      anySdtIsValid [0, 0, 0, 0, 9, 0, 0, 0, 247] = true) ∧
    anySdtIsValid (List.set [0, 0, 0, 0, 9, 0, 0, 0, 247] 8 0) = false :=
  ⟨⟨by decide, by decide, by decide, by decide, by decide, by decide, by decide⟩,
    checksumValidIffAndMutation.2 [0, 0, 0, 0, 9, 0, 0, 0, 247] 8 0 (by decide)
      (by decide) (by decide) (by decide) (by decide) (by decide) (by decide)⟩

/-- Counterexample for C5: `mark_reserved` over an already-`Reserved` frame
does not fault (it only asserts the state is not `Allocated`), and
`mark_allocated` over an already-`Allocated` frame does not fault (it only
asserts the state is not `Reserved`) — contradicting the claim that any
non-`Free` prior state faults. -/
theorem markRemarkNoFault :
    markReserved [PageFrameState.reserved] 0 1 = some [PageFrameState.reserved] ∧
    markAllocated [PageFrameState.allocated] 0 1
      = some [PageFrameState.allocated] := by decide

lemma markAllocatedGo_none_iff : ∀ (n : Nat) (tbl : List PageFrameState) (i : Nat),
    markAllocatedGo tbl i n = none
      ↔ ∃ j, i ≤ j ∧ j < i + n ∧ tbl.getD j .free = .reserved := by
  intro n
  induction n with
  | zero =>
    intro tbl i
    simp only [markAllocatedGo]
    constructor
    · intro h; exact absurd h (by simp)
    · rintro ⟨j, h1, h2, _⟩; omega
  | succ n ih =>
    intro tbl i
    simp only [markAllocatedGo]
    by_cases h : tbl.getD i .free = .reserved
    · simp only [h, if_pos rfl]
      exact ⟨fun _ => ⟨i, Nat.le_refl i, by omega, h⟩, fun _ => rfl⟩
    · rw [if_neg h, ih]
      constructor
      · rintro ⟨j, h1, h2, h3⟩
        rw [getD_set_ne tbl i j PageFrameState.allocated PageFrameState.free
          (by omega)] at h3
        exact ⟨j, by omega, by omega, h3⟩
      · rintro ⟨j, h1, h2, h3⟩
        have hij : i ≠ j := fun he => h (he ▸ h3)
        refine ⟨j, by omega, by omega, ?_⟩
        rwa [getD_set_ne tbl i j PageFrameState.allocated PageFrameState.free hij]

lemma markReservedGo_none_iff : ∀ (n : Nat) (tbl : List PageFrameState) (i : Nat),
    markReservedGo tbl i n = none
      ↔ ∃ j, i ≤ j ∧ j < i + n ∧ tbl.getD j .free = .allocated := by
  intro n
  induction n with
  | zero =>
    intro tbl i
    simp only [markReservedGo]
    constructor
    · intro h; exact absurd h (by simp)
    · rintro ⟨j, h1, h2, _⟩; omega
  | succ n ih =>
    intro tbl i
    simp only [markReservedGo]
    by_cases h : tbl.getD i .free = .allocated
    · simp only [h, if_pos rfl]
      exact ⟨fun _ => ⟨i, Nat.le_refl i, by omega, h⟩, fun _ => rfl⟩
    · rw [if_neg h, ih]
      constructor
      · rintro ⟨j, h1, h2, h3⟩
        rw [getD_set_ne tbl i j PageFrameState.reserved PageFrameState.free
          (by omega)] at h3
        exact ⟨j, by omega, by omega, h3⟩
      · rintro ⟨j, h1, h2, h3⟩
        have hij : i ≠ j := fun he => h (he ▸ h3)
        refine ⟨j, by omega, by omega, ?_⟩
        rwa [getD_set_ne tbl i j PageFrameState.reserved PageFrameState.free hij]

/-- C5 (amended): for an in-bounds region, `mark_allocated` faults exactly
when the region contains a `Reserved` frame, and `mark_reserved` faults
exactly when the region contains an `Allocated` frame; re-marking a frame
with its current state (allocating an `Allocated` frame, reserving a
`Reserved` frame) is permitted and does not fault. -/
theorem markFaultIff (tbl : List PageFrameState) (s e : Nat)
    (hs : s < tbl.length) (he : e ≤ tbl.length) :
    (markAllocated tbl s e = none
      ↔ ∃ j, s ≤ j ∧ j < e ∧ tbl.getD j .free = .reserved)
    ∧ (markReserved tbl s e = none
      ↔ ∃ j, s ≤ j ∧ j < e ∧ tbl.getD j .free = .allocated) := by
  constructor
  · simp only [markAllocated, if_pos (And.intro hs he)]
    rw [markAllocatedGo_none_iff]
    constructor
    · rintro ⟨j, h1, h2, h3⟩; exact ⟨j, h1, by omega, h3⟩
    · rintro ⟨j, h1, h2, h3⟩; exact ⟨j, h1, by omega, h3⟩
  · simp only [markReserved, if_pos (And.intro hs he)]
    rw [markReservedGo_none_iff]
    constructor
    · rintro ⟨j, h1, h2, h3⟩; exact ⟨j, h1, by omega, h3⟩
    · rintro ⟨j, h1, h2, h3⟩; exact ⟨j, h1, by omega, h3⟩

/-- Witness for C5's amended statement on a concrete two-frame table. -/
theorem markFaultIffWitness :
    (0 < ([PageFrameState.free, PageFrameState.reserved] :
        List PageFrameState).length ∧
      2 ≤ ([PageFrameState.free, PageFrameState.reserved] :
        List PageFrameState).length) ∧
    (markAllocated [PageFrameState.free, PageFrameState.reserved] 0 2 = none
      ↔ ∃ j, 0 ≤ j ∧ j < 2 ∧
          List.getD [PageFrameState.free, PageFrameState.reserved] j
            PageFrameState.free = PageFrameState.reserved) :=
  ⟨⟨by decide, by decide⟩,
    (markFaultIff [PageFrameState.free, PageFrameState.reserved] 0 2
      (by decide) (by decide)).1⟩

/-! ## Bump-allocator invariants (C7) -/

/-- Lower bound: every non-empty region starts at or after `lo`. -/
def RegionsLB (lo : Nat) (rs : List PFRegion) : Prop :=
  ∀ r ∈ rs, r.isEmpty = false → lo ≤ r.start

/-- The allocator's candidate chain: current region (if any) followed by the
remaining regions. -/
def chainOf (a : Bump) : List PFRegion := a.current.toList ++ a.regions

/-- Allocator invariant: the candidate chain is sorted (each region ends at
or before the next starts) and bounded below by `lo`. -/
def BumpInv (lo : Nat) (a : Bump) : Prop :=
  List.Pairwise (fun r s => r.stop ≤ s.start) (chainOf a) ∧ RegionsLB lo (chainOf a)

lemma findNonEmptyList_none : ∀ rs rest, findNonEmptyList rs = (none, rest) →
    rest = [] := by
  intro rs
  induction rs with
  | nil =>
    intro rest h
    simp [findNonEmptyList] at h
    exact h
  | cons r t ih =>
    intro rest h
    by_cases hr : r.isEmpty
    · exact ih rest (by simpa [findNonEmptyList, hr] using h)
    · simp [findNonEmptyList, hr] at h

lemma findNonEmptyList_some {lo : Nat} : ∀ rs r rest,
    List.Pairwise (fun r s => r.stop ≤ s.start) rs → RegionsLB lo rs →
    findNonEmptyList rs = (some r, rest) →
    r.isEmpty = false ∧ lo ≤ r.start ∧
      List.Pairwise (fun r s => r.stop ≤ s.start) (r :: rest) ∧
      RegionsLB lo (r :: rest) := by
  intro rs
  induction rs with
  | nil => intro r rest _ _ h; simp [findNonEmptyList] at h
  | cons x t ih =>
    intro r rest hp hlb h
    by_cases hx : x.isEmpty
    · have ht : findNonEmptyList t = (some r, rest) := by
        simpa [findNonEmptyList, hx] using h
      exact ih r rest (List.Pairwise.of_cons hp)
        (fun s hs he => hlb s (List.mem_cons_of_mem x hs) he) ht
    · have hx2 : x.isEmpty = false := by
        simpa using hx
      have hxr : x = r ∧ t = rest := by
        have := h
        simp [findNonEmptyList, hx2] at this
        exact ⟨this.1, this.2⟩
      obtain ⟨rfl, rfl⟩ := hxr
      exact ⟨hx2, hlb x (List.mem_cons_self x t) hx2, hp, hlb⟩

lemma region_not_empty (r : PFRegion) (h : r.isEmpty = false) : r.start < r.stop := by
  simpa [PFRegion.isEmpty] using h

lemma postAlloc_inv {r : PFRegion} {rest : List PFRegion}
    (hp : List.Pairwise (fun r s => r.stop ≤ s.start) (r :: rest))
    (hne : r.isEmpty = false) :
    BumpInv (r.start + 1) ⟨some ⟨r.start + 1, r.stop⟩, rest⟩ := by
  rw [List.pairwise_cons] at hp
  constructor
  · show List.Pairwise _ (⟨r.start + 1, r.stop⟩ :: rest)
    rw [List.pairwise_cons]
    exact ⟨fun s hs => hp.1 s hs, hp.2⟩
  · intro s hs hse
    simp only [chainOf, Option.toList_some, List.cons_append, List.nil_append,
      List.mem_cons] at hs
    rcases hs with rfl | hs
    · exact Nat.le_refl _
    · have h1 := hp.1 s hs
      have h2 := region_not_empty r hne
      omega

lemma allocScan_spec (lo : Nat) (a : Bump) (h : BumpInv lo a) :
    (∀ rest, allocScan a.current a.regions = (none, rest) → rest = []) ∧
    (∀ r rest, allocScan a.current a.regions = (some r, rest) →
      r.isEmpty = false ∧ lo ≤ r.start ∧
        List.Pairwise (fun r s => r.stop ≤ s.start) (r :: rest) ∧
        RegionsLB lo (r :: rest)) := by
  obtain ⟨hp, hlb⟩ := h
  cases hc : a.current with
  | none =>
    simp only [chainOf, hc, Option.toList_none, List.nil_append] at hp hlb
    simp only [allocScan]
    exact ⟨fun rest he => findNonEmptyList_none _ _ he,
      fun r rest he => findNonEmptyList_some _ r rest hp hlb he⟩
  | some r0 =>
    simp only [chainOf, hc, Option.toList_some, List.cons_append,
      List.nil_append] at hp hlb
    by_cases hr0 : r0.isEmpty
    · have hp2 := List.Pairwise.of_cons hp
      have hlb2 : RegionsLB lo a.regions :=
        fun s hs hse => hlb s (List.mem_cons_of_mem r0 hs) hse
      simp only [allocScan, hr0, if_true]
      exact ⟨fun rest he => findNonEmptyList_none _ _ he,
        fun r rest he => findNonEmptyList_some _ r rest hp2 hlb2 he⟩
    · have hr0f : r0.isEmpty = false := by simpa using hr0
      simp only [allocScan, hr0f, Bool.false_eq_true, if_false]
      constructor
      · intro rest he; simp at he
      · intro r rest he
        simp only [Prod.mk.injEq, Option.some.injEq] at he
        obtain ⟨he1, he2⟩ := he
        subst he1
        subst he2
        exact ⟨hr0f, hlb _ (List.mem_cons_self _ _) hr0f, hp, hlb⟩

lemma bumpAlloc_none {lo : Nat} {a a2 : Bump} (h : BumpInv lo a)
    (he : a.alloc = (none, a2)) : BumpInv lo a2 := by
  have hs := allocScan_spec lo a h
  rcases hsc : allocScan a.current a.regions with ⟨c, rest⟩
  cases c with
  | none =>
    have hrest := hs.1 rest hsc
    subst hrest
    simp only [Bump.alloc, hsc] at he
    injection he with h1 h2
    subst h2
    exact ⟨List.Pairwise.nil, fun s hs _ => absurd hs (by simp [chainOf])⟩
  | some r =>
    simp [Bump.alloc, hsc] at he

lemma bumpAlloc_some {lo f : Nat} {a a2 : Bump} (h : BumpInv lo a)
    (he : a.alloc = (some f, a2)) : lo ≤ f ∧ BumpInv (f + 1) a2 := by
  have hs := allocScan_spec lo a h
  rcases hsc : allocScan a.current a.regions with ⟨c, rest⟩
  cases c with
  | none => simp [Bump.alloc, hsc] at he
  | some r =>
    obtain ⟨hne, hlo, hp, _⟩ := hs.2 r rest hsc
    simp only [Bump.alloc, hsc, Prod.mk.injEq, Option.some.injEq] at he
    obtain ⟨rfl, rfl⟩ := he
    exact ⟨hlo, postAlloc_inv hp hne⟩

lemma reserveScanList_inv (t lo : Nat) : ∀ (rs : List PFRegion) c rest,
    List.Pairwise (fun r s => r.stop ≤ s.start) rs → RegionsLB lo rs →
    reserveScanList t rs = (c, rest) → BumpInv (max lo t) ⟨c, rest⟩ := by
  intro rs
  induction rs with
  | nil =>
    intro c rest _ _ he
    simp only [reserveScanList, Prod.mk.injEq] at he
    obtain ⟨rfl, rfl⟩ := he
    exact ⟨List.Pairwise.nil, fun s hs _ => absurd hs (by simp [chainOf])⟩
  | cons x tl ih =>
    intro c rest hp hlb he
    rw [List.pairwise_cons] at hp
    by_cases ht : t < x.stop
    · simp only [reserveScanList, ht, if_true, Prod.mk.injEq] at he
      obtain ⟨rfl, rfl⟩ := he
      constructor
      · show List.Pairwise _ (⟨max x.start t, x.stop⟩ :: tl)
        rw [List.pairwise_cons]
        exact ⟨fun s hs => hp.1 s hs, hp.2⟩
      · intro s hs hse
        simp only [chainOf, Option.toList_some, List.cons_append,
          List.nil_append, List.mem_cons] at hs
        rcases hs with rfl | hs
        · have hxe : x.isEmpty = false := by
            by_contra hxe
            have hxe2 : x.isEmpty = true := by simpa using hxe
            have : x.stop ≤ x.start := by simpa [PFRegion.isEmpty] using hxe2
            have := region_not_empty _ hse
            simp only at this
            omega
          have := hlb x (List.mem_cons_self x tl) hxe
          have : lo ≤ max x.start t := Nat.le_trans this (Nat.le_max_left _ _)
          have ht2 : t ≤ max x.start t := Nat.le_max_right _ _
          simp only
          omega
        · have h1 := hp.1 s hs
          have h2 := hlb s (List.mem_cons_of_mem x hs) hse
          omega
    · simp only [reserveScanList, ht, if_false] at he
      exact ih c rest hp.2 (fun s hs hse => hlb s (List.mem_cons_of_mem x hs) hse) he

lemma reserveUntil_eq_scan (a : Bump) (t : Nat) :
    a.reserveUntil t
      = ⟨(reserveScanList t (chainOf a)).1, (reserveScanList t (chainOf a)).2⟩ := by
  cases hc : a.current with
  | none =>
    simp only [Bump.reserveUntil, hc, chainOf, Option.toList_none, List.nil_append]
  | some r =>
    simp only [Bump.reserveUntil, hc, chainOf, Option.toList_some, List.cons_append,
      List.nil_append, reserveScanList]
    by_cases ht : t < r.stop
    · simp [ht]
    · simp [ht]

lemma bumpReserve_inv {lo : Nat} (t : Nat) {a : Bump} (h : BumpInv lo a) :
    BumpInv (max lo t) (a.reserveUntil t) := by
  rw [reserveUntil_eq_scan]
  exact reserveScanList_inv t lo (chainOf a) _ _ h.1 h.2 rfl

/-- Running lower bound along a trace: every successful allocation returns at
least the current bound and raises it past the returned frame; a
`reserve_until t` raises the bound to at least `t`. -/
def TraceOK : Nat → List (BumpOp × Option Nat) → Prop
  | _, [] => True
  | lo, (BumpOp.alloc, some f) :: tr => lo ≤ f ∧ TraceOK (f + 1) tr
  | lo, (BumpOp.alloc, none) :: tr => TraceOK lo tr
  | lo, (BumpOp.reserveUntil t, _) :: tr => TraceOK (max lo t) tr

lemma runBump_traceOK : ∀ (ops : List BumpOp) (a : Bump) (lo : Nat),
    BumpInv lo a → TraceOK lo (runBump a ops) := by
  intro ops
  induction ops with
  | nil => intro a lo _; simp [runBump, TraceOK]
  | cons op rest ih =>
    intro a lo h
    cases op with
    | alloc =>
      rcases he : a.alloc with ⟨r, a2⟩
      cases r with
      | none =>
        simp only [runBump, he, TraceOK]
        exact ih a2 lo (bumpAlloc_none h he)
      | some f =>
        obtain ⟨h1, h2⟩ := bumpAlloc_some h he
        simp only [runBump, he, TraceOK]
        exact ⟨h1, ih a2 (f + 1) h2⟩
    | reserveUntil t =>
      simp only [runBump, TraceOK]
      exact ih _ (max lo t) (bumpReserve_inv t h)

lemma traceOK_allocResults : ∀ (tr : List (BumpOp × Option Nat)) (lo : Nat),
    TraceOK lo tr →
    (∀ f ∈ allocResults tr, lo ≤ f) ∧ List.Pairwise (· ≤ ·) (allocResults tr) := by
  intro tr
  induction tr with
  | nil => intro lo _; simp [allocResults]
  | cons p rest ih =>
    intro lo h
    rcases p with ⟨op, res⟩
    cases op with
    | alloc =>
      cases res with
      | none =>
        simp only [TraceOK] at h
        simpa [allocResults] using ih lo h
      | some f =>
        obtain ⟨h1, h2⟩ := h
        obtain ⟨ihall, ihpair⟩ := ih (f + 1) h2
        simp only [allocResults, List.filterMap_cons] at *
        constructor
        · intro g hg
          rcases List.mem_cons.mp hg with rfl | hg
          · exact h1
          · exact Nat.le_trans h1 (Nat.le_trans (Nat.le_succ f) (ihall g hg))
        · rw [List.pairwise_cons]
          exact ⟨fun g hg => Nat.le_trans (Nat.le_succ f) (ihall g hg), ihpair⟩
    | reserveUntil t =>
      simp only [TraceOK] at h
      obtain ⟨ihall, ihpair⟩ := ih (max lo t) h
      simp only [allocResults, List.filterMap_cons]
      exact ⟨fun g hg => Nat.le_trans (Nat.le_max_left lo t) (ihall g hg), ihpair⟩

lemma traceOK_after_bound : ∀ (tr2a : List (BumpOp × Option Nat)) (lo t f : Nat)
    (tr2b : List (BumpOp × Option Nat)),
    t ≤ lo → TraceOK lo (tr2a ++ (BumpOp.alloc, some f) :: tr2b) →
    (∀ u y, (BumpOp.reserveUntil u, y) ∈ tr2a → False) → t ≤ f := by
  intro tr2a
  induction tr2a with
  | nil =>
    intro lo t f tr2b hts h _
    simp only [List.nil_append, TraceOK] at h
    omega
  | cons p rest ih =>
    intro lo t f tr2b hts h hno
    rcases p with ⟨op, res⟩
    cases op with
    | alloc =>
      cases res with
      | none =>
        simp only [List.cons_append, TraceOK] at h
        exact ih lo t f tr2b hts h (fun u y hu => hno u y (List.mem_cons_of_mem _ hu))
      | some g =>
        simp only [List.cons_append, TraceOK] at h
        exact ih (g + 1) t f tr2b (by omega) h.2
          (fun u y hu => hno u y (List.mem_cons_of_mem _ hu))
    | reserveUntil u =>
      exact absurd (List.mem_cons_self _ rest) (fun hm => hno u res hm)

lemma traceOK_threshold : ∀ (tr1 : List (BumpOp × Option Nat)) (lo t : Nat)
    (x : Option Nat) (tr2a : List (BumpOp × Option Nat)) (f : Nat)
    (tr2b : List (BumpOp × Option Nat)),
    TraceOK lo (tr1 ++ (BumpOp.reserveUntil t, x)
      :: (tr2a ++ (BumpOp.alloc, some f) :: tr2b)) →
    (∀ u y, (BumpOp.reserveUntil u, y) ∈ tr2a → False) → t ≤ f := by
  intro tr1
  induction tr1 with
  | nil =>
    intro lo t x tr2a f tr2b h hno
    simp only [List.nil_append, TraceOK] at h
    exact traceOK_after_bound tr2a (max lo t) t f tr2b (Nat.le_max_right lo t) h hno
  | cons p rest ih =>
    intro lo t x tr2a f tr2b h hno
    rcases p with ⟨op, res⟩
    cases op with
    | alloc =>
      cases res with
      | none =>
        simp only [List.cons_append, TraceOK] at h
        exact ih lo t x tr2a f tr2b h hno
      | some g =>
        simp only [List.cons_append, TraceOK] at h
        exact ih (g + 1) t x tr2a f tr2b h.2 hno
    | reserveUntil u =>
      simp only [List.cons_append, TraceOK] at h
      exact ih (max lo u) t x tr2a f tr2b h hno

/-- Counterexample for C7: over the unsorted region iterator
`[5..6), [0..3)` the second `alloc()` returns frame 0, smaller than the
previously returned frame 5 — so the monotonicity claim fails for
arbitrary region iterators. -/
theorem bumpUnsortedNotMonotone :
    runBump (Bump.new [⟨5, 6⟩, ⟨0, 3⟩]) [BumpOp.alloc, BumpOp.alloc]
      = [(BumpOp.alloc, some 5), (BumpOp.alloc, some 0)] ∧ (0 : Nat) < 5 := by
  decide

/-- C7 (amended): when the available regions are supplied in ascending,
non-overlapping order (each region ends no later than the next begins),
then over every sequence of `alloc`/`reserve_until` operations the frames
returned by `alloc()` are non-decreasing, every `alloc()` that follows a
`reserve_until t` with no later `reserve_until` in between returns a frame
at least `t`, and `free()` always faults. -/
theorem bumpMonotoneSorted (rs : List PFRegion) (hs : RegionsSorted rs)
    (ops : List BumpOp) :
    List.Pairwise (· ≤ ·) (allocResults (runBump (Bump.new rs) ops))
    ∧ (∀ (tr1 : List (BumpOp × Option Nat)) (t : Nat) (x : Option Nat)
        (tr2a : List (BumpOp × Option Nat)) (f : Nat)
        (tr2b : List (BumpOp × Option Nat)),
        runBump (Bump.new rs) ops
          = tr1 ++ (BumpOp.reserveUntil t, x)
              :: (tr2a ++ (BumpOp.alloc, some f) :: tr2b) →
        (∀ u y, (BumpOp.reserveUntil u, y) ∈ tr2a → False) → t ≤ f)
    ∧ (∀ (a : Bump) (g : Nat), Bump.freeOp a g = none) := by
  have hinv : BumpInv 0 (Bump.new rs) := by
    constructor
    · cases rs with
      | nil => exact List.Pairwise.nil
      | cons r rest =>
        have hs2 : List.Pairwise (fun r s => r.stop ≤ s.start) (r :: rest) := hs
        simpa [chainOf, Bump.new] using hs2
    · intro s _ _; exact Nat.zero_le _
  have htrace := runBump_traceOK ops (Bump.new rs) 0 hinv
  refine ⟨(traceOK_allocResults _ 0 htrace).2, ?_, fun a g => rfl⟩
  intro tr1 t x tr2a f tr2b heq hno
  exact traceOK_threshold tr1 0 t x tr2a f tr2b (heq ▸ htrace) hno

/-- Witness for C7's amended statement: a concrete sorted region list and
operation sequence. -/
theorem bumpMonotoneSortedWitness :
    RegionsSorted [⟨0, 3⟩, ⟨5, 8⟩] ∧
    List.Pairwise (· ≤ ·)
      (allocResults (runBump (Bump.new [⟨0, 3⟩, ⟨5, 8⟩])
        [BumpOp.alloc, BumpOp.reserveUntil 6, BumpOp.alloc, BumpOp.alloc])) :=
  ⟨by simp [RegionsSorted],
    (bumpMonotoneSorted [⟨0, 3⟩, ⟨5, 8⟩] (by simp [RegionsSorted])
      [BumpOp.alloc, BumpOp.reserveUntil 6, BumpOp.alloc, BumpOp.alloc]).1⟩

/-! ## Virtual address-space mapper (kmem/src/paging/mod.rs)

Physical memory is a function from byte addresses to 64-bit values, read
and written only at 8-aligned addresses (one cell per quad word). Page
table levels are `Nat`: 0 = PT, 1 = PD, 2 = PDP, 3 = PML4. The `pml4`
parameter is the byte address of the PML4 table (the CR3 base). -/

/-- Modelled from the spec: accessors of `amd64::paging::PageTableEntry`
(the `amd64` crate's `paging` module is not among the sources; spec §3/§6
give the layout: 64-bit entry, base address in bits 12-51 masked with
`0x000F_FFFF_FFFF_F000`, low byte of standard flags with `PRESENT` = bit 0,
`WRITABLE` = bit 1, `SIZE` = bit 7). Present bit of an entry. -/
def entryPresent (e : Nat) : Bool := e % 2 = 1

/-- Modelled from the spec: the `SIZE` (large page) flag, bit 7. -/
def entrySize (e : Nat) : Bool := e / 128 % 2 = 1

/-- Modelled from the spec: `PageTableEntry::base()`, bits 12-51. -/
def entryBase (e : Nat) : Nat := e % 2 ^ 52 / 4096 * 4096

/-- Modelled from the spec: `PageTableEntry::set_base` — replace bits 12-51
with the masked address. -/
def entrySetBase (e a : Nat) : Nat :=
  (e % 4096 + e / 2 ^ 52 * 2 ^ 52) + a % 2 ^ 52 / 4096 * 4096

/-- Modelled from the spec: `PageTableEntry::set_flags` — replace the low
byte. `PRESENT|WRITABLE` is 3, `PRESENT|WRITABLE|SIZE` is 131. -/
def entrySetFlags (e f : Nat) : Nat := e / 256 * 256 + f % 256

/-- Embeds `index_at_level`: `(vaddr >> (12 + 9 * level)) & 0x1FF`. -/
def indexAtLevel (level vaddr : Nat) : Nat := vaddr / 2 ^ (12 + 9 * level) % 512

/-- Embeds one iteration of the loop in `entry_at_level`:
`addr = ((addr >> 9) & 0xFFFF_007F_FFFF_FFFF) | (recIdx << 39)`. The mask
keeps bits 0-38 and 48-63 (written arithmetically), and the or with the
recursive index lands in the cleared bits 39-47, so it is addition. -/
def recStep (recIdx addr : Nat) : Nat :=
  addr / 512 % 2 ^ 39 + addr / 512 / 2 ^ 48 * 2 ^ 48 + recIdx * 2 ^ 39

/-- Iterates `recStep` (the source loop runs `level + 1` times). -/
def recStepIter (recIdx : Nat) : Nat → Nat → Nat
  | 0, addr => addr
  | n + 1, addr => recStepIter recIdx n (recStep recIdx addr)

/-- Embeds `CurrentRecursiveMapping::entry_at_level`: iterate the shift
step `level + 1` times, canonicalize (set bits 48-63 if the recursive index
is in the upper half, clear them otherwise), then align down to 8 bytes. -/
def entryAtLevel (recIdx level vaddr : Nat) : Nat :=
  let a := recStepIter recIdx (level + 1) vaddr
  let b := if 256 ≤ recIdx then a % 2 ^ 48 + 65535 * 2 ^ 48 else a % 2 ^ 48
  b / 8 * 8

/-- Embeds `CurrentRecursiveMapping::table_at_level`: the entry address
aligned down to the page boundary. -/
def tableAtLevel (recIdx level vaddr : Nat) : Nat :=
  entryAtLevel recIdx level vaddr / 4096 * 4096

/-- Models the AMD64 4-level MMU translation the code runs under: walk
PML4/PDP/PD/PT entries indexed by the 9-bit virtual-address slices,
honouring the `PRESENT` bit at every level and the `SIZE` (large page) bit
at the PDP and PD levels; `none` is a page fault. This is the hardware
environment assumed by the recursive-mapping trick (spec §3,
"Address-space hierarchy"). -/
def translate (mem : Nat → Nat) (pml4 va : Nat) : Option Nat :=
  let e3 := mem (pml4 + va / 2 ^ 39 % 512 * 8)
  if entryPresent e3 = false then none
  else
    let e2 := mem (entryBase e3 + va / 2 ^ 30 % 512 * 8)
    if entryPresent e2 = false then none
    else if entrySize e2 = true then some (entryBase e2 + va % 2 ^ 30)
    else
      let e1 := mem (entryBase e2 + va / 2 ^ 21 % 512 * 8)
      if entryPresent e1 = false then none
      else if entrySize e1 = true then some (entryBase e1 + va % 2 ^ 21)
      else
        let e0 := mem (entryBase e1 + va / 2 ^ 12 % 512 * 8)
        if entryPresent e0 = false then none
        else some (entryBase e0 + va % 2 ^ 12)

/-- A quad-word read through a virtual address (`&*addr.as_ptr()`); `none`
is a page fault. -/
def readQ (mem : Nat → Nat) (pml4 va : Nat) : Option Nat :=
  (translate mem pml4 va).map mem

/-- A quad-word write through a virtual address (`*entry = ...`); `none` is
a page fault. -/
def writeQ (mem : Nat → Nat) (pml4 va v : Nat) : Option (Nat → Nat) :=
  match translate mem pml4 va with
  | none => none
  | some pa => some (fun a => if a = pa then v else mem a)

/-- Embeds `crate::util::memset(ptr, PAGE_SIZE, 0)` on a page-aligned
virtual address: `n` successive quad words starting at `va` are zeroed
through the current translation (each write re-translates, as the hardware
does). -/
def memsetZero (mem : Nat → Nat) (pml4 va : Nat) : Nat → Option (Nat → Nat)
  | 0 => some mem
  | n + 1 =>
    match memsetZero mem pml4 va n with
    | none => none
    | some m => writeQ m pml4 (va + 8 * n) 0

/-- Embeds `MapError` (kmem/src/paging/mod.rs). -/
inductive MapError where
  | invalidLevel (level : Nat)
  | mappingExists
  | outOfMemory
deriving DecidableEq, Repr

/-- State carried through `map`: physical memory plus the page frame
allocator, modelled as the list of free frame numbers (`alloc` pops the
head, `free` pushes). -/
structure MapState where
  mem : Nat → Nat
  free : List Nat

/-- Outcome of a mapping call: `panic` models both a CPU fault on a page
table access and a Rust panic (the `expect` in `map_impl_rec` or a failed
assertion); `err` carries the `Err` value together with the state as left
behind by the rollback path. -/
inductive MapResult where
  | panic
  | err (e : MapError) (st : MapState)
  | ok (st : MapState)

/-- Embeds the body of `map_impl_rec` at the PT level (level 0). The branch
structure follows the source: (1) at the target level with a non-present
entry, install the leaf entry (`PRESENT|WRITABLE` = 3); (2) otherwise, if
the entry does not have both `SIZE` and `PRESENT`, the source calls
`current_level.child().expect("we shouldn't be at the PT level yet")`,
which panics at level 0; (3) otherwise: `MappingExists`. TLB invalidation
has no observable effect in this memory model. -/
def mapStepPT (recIdx pml4 vaddr paddr targetLevel : Nat) (st : MapState) :
    MapResult :=
  match readQ st.mem pml4 (entryAtLevel recIdx 0 vaddr) with
  | none => .panic
  | some entry =>
    if 0 = targetLevel ∧ entryPresent entry = false then
      match writeQ st.mem pml4 (entryAtLevel recIdx 0 vaddr)
          (entrySetFlags (entrySetBase 0 paddr) 3) with
      | none => .panic
      | some m2 => .ok ⟨m2, st.free⟩
    else if (entrySize entry && entryPresent entry) = false then
      .panic
    else
      .err .mappingExists st

/-- Embeds the body of `map_impl_rec` at a level above PT (`cl + 1`), with
the recursive call abstracted as `recurse`: install the leaf
(`PRESENT|WRITABLE|SIZE` = 131) when at the target level with a free slot;
descend otherwise when the entry is not a present large page — allocating,
linking and zeroing a fresh intermediate table if the entry is not present,
and on a failed recursive call restoring the entry and freeing the frame;
a present large page yields `MappingExists`. -/
def mapStepUpper (recIdx pml4 vaddr paddr targetLevel cl : Nat)
    (recurse : MapState → MapResult) (st : MapState) : MapResult :=
  match readQ st.mem pml4 (entryAtLevel recIdx (cl + 1) vaddr) with
  | none => .panic
  | some entry =>
    if cl + 1 = targetLevel ∧ entryPresent entry = false then
      match writeQ st.mem pml4 (entryAtLevel recIdx (cl + 1) vaddr)
          (entrySetFlags (entrySetBase 0 paddr) 131) with
      | none => .panic
      | some m2 => .ok ⟨m2, st.free⟩
    else if (entrySize entry && entryPresent entry) = false then
      if entryPresent entry = false then
        match st.free with
        | [] => .err .outOfMemory st
        | f :: rest =>
          match writeQ st.mem pml4 (entryAtLevel recIdx (cl + 1) vaddr)
              (entrySetFlags (entrySetBase 0 (f * 4096)) 3) with
          | none => .panic
          | some m1 =>
            match memsetZero m1 pml4 (tableAtLevel recIdx cl vaddr) 512 with
            | none => .panic
            | some m2 =>
              match recurse ⟨m2, rest⟩ with
              | .ok st2 => .ok st2
              | .err e st2 =>
                match writeQ st2.mem pml4 (entryAtLevel recIdx (cl + 1) vaddr) entry with
                | none => .panic
                | some m3 => .err e ⟨m3, f :: st2.free⟩
              | .panic => .panic
      else
        recurse st
    else
      .err .mappingExists st

/-- Embeds `CurrentRecursiveMapping::map_impl_rec`: dispatch on the current
level to the per-level body, tying the recursion one level down. -/
def mapImplRec (recIdx pml4 vaddr paddr targetLevel : Nat) :
    MapState → Nat → MapResult
  | st, 0 => mapStepPT recIdx pml4 vaddr paddr targetLevel st
  | st, cl + 1 =>
    mapStepUpper recIdx pml4 vaddr paddr targetLevel cl
      (fun st2 => mapImplRec recIdx pml4 vaddr paddr targetLevel st2 cl) st

/-- Embeds `AddressSpace::map` for `CurrentRecursiveMapping`: reject levels
at or above 2 (`InvalidLevel`), assert the level-granularity alignment of
both addresses (failure is a panic), then run the recursive implementation
from the PML4 level. -/
def mapVirt (recIdx pml4 vaddr paddr level : Nat) (st : MapState) : MapResult :=
  if 2 ≤ level then .err (.invalidLevel level) st
  else if ¬(paddr % 2 ^ (12 + 9 * level) = 0 ∧ vaddr % 2 ^ (12 + 9 * level) = 0) then
    .panic
  else mapImplRec recIdx pml4 vaddr paddr level st 3

/-- Embeds the loop of `CurrentRecursiveMapping::resolve` as written: at
every iteration the entry is read from
`self.entry_at_level(Level::PT, vaddr)` — the PT-level entry address,
regardless of `current_level` — then the present flag is tested, the loop
stops at a `SIZE`-flagged entry or at level 0 with
`Some(base + (vaddr & offset_mask))`, and otherwise descends one level.
The outer `none` is a page fault during the read; `some none` is the
function returning `None`. -/
def resolveGo (recIdx pml4 : Nat) (mem : Nat → Nat) (vaddr : Nat)
    (l : Nat) : Option (Option Nat) :=
  match readQ mem pml4 (entryAtLevel recIdx 0 vaddr) with
    | none => none
    | some entry =>
      if entryPresent entry = true then
        if l = 0 ∨ entrySize entry = true then
          some (some (entryBase entry + vaddr % 2 ^ (12 + 9 * l)))
        else
          match l with
          | 0 => none
          | cl + 1 => resolveGo recIdx pml4 mem vaddr cl
      else some none

/-- Embeds `CurrentRecursiveMapping::resolve`: the loop starts at PML4. -/
def resolveVirt (recIdx pml4 : Nat) (mem : Nat → Nat) (vaddr : Nat) :
    Option (Option Nat) :=
  resolveGo recIdx pml4 mem vaddr 3

/-- Modelled from the spec: `resolve` as the spec describes it — "walk down
from PML4, following present entries", i.e. at each step the entry of the
`current` level (`entry_at_level(current_level, vaddr)`) is read. Identical
to `resolveGo` except for the level passed to `entryAtLevel`; used to
contrast the code as written with the specified walk. -/
def resolveSpecGo (recIdx pml4 : Nat) (mem : Nat → Nat) (vaddr : Nat)
    (l : Nat) : Option (Option Nat) :=
  match readQ mem pml4 (entryAtLevel recIdx l vaddr) with
    | none => none
    | some entry =>
      if entryPresent entry = true then
        if l = 0 ∨ entrySize entry = true then
          some (some (entryBase entry + vaddr % 2 ^ (12 + 9 * l)))
        else
          match l with
          | 0 => none
          | cl + 1 => resolveSpecGo recIdx pml4 mem vaddr cl
      else some none

/-- Modelled from the spec: the specified resolve, starting at PML4. -/
def resolveSpecVirt (recIdx pml4 : Nat) (mem : Nat → Nat) (vaddr : Nat) :
    Option (Option Nat) :=
  resolveSpecGo recIdx pml4 mem vaddr 3

/-- Whether a mapping call succeeded. -/
def MapResult.isOk : MapResult → Bool
  | .ok _ => true
  | _ => false

/-- Whether a mapping call ended in a panic or CPU fault. -/
def MapResult.isPanic : MapResult → Bool
  | .panic => true
  | _ => false

/-- The typed error of a mapping call, if any. -/
def MapResult.errOf : MapResult → Option MapError
  | .err e _ => some e
  | _ => none

/-- The final memory of a mapping call (for both `ok` and `err`). -/
def MapResult.memOf : MapResult → Option (Nat → Nat)
  | .ok st => some st.mem
  | .err _ st => some st.mem
  | .panic => none

/-- The final free list of a mapping call (for both `ok` and `err`). -/
def MapResult.freeOf : MapResult → Option (List Nat)
  | .ok st => some st.free
  | .err _ st => some st.free
  | .panic => none

/-! ### Concrete page-table states

All use recursive index 510, PML4 in frame 1 (byte address 4096) with the
recursive entry `PML4[510] = 0x1003` (present, writable, base 0x1000), and
virtual address 0 (all four indices 0). -/

/-- Page tables with a present chain PML4[0] → PDP (frame 2) → PD (frame 3)
whose PD entry is still empty; all other memory is zero. -/
def memChainToPD : Nat → Nat := fun a =>
  if a = 4096 + 510 * 8 then 4096 + 3
  else if a = 4096 then 2 * 4096 + 3
  else if a = 2 * 4096 then 3 * 4096 + 3
  else 0

/-- Page tables with a full present chain down to a PT (frame 4) whose
entry 0 maps the 4 KiB page at 0x5000 (present, writable, no SIZE). -/
def memFourKMapped : Nat → Nat := fun a =>
  if a = 4096 + 510 * 8 then 4096 + 3
  else if a = 4096 then 2 * 4096 + 3
  else if a = 2 * 4096 then 3 * 4096 + 3
  else if a = 3 * 4096 then 4 * 4096 + 3
  else if a = 4 * 4096 then 5 * 4096 + 3
  else 0

/-- Like `memChainToPD` but with the PD entry holding a 2 MiB mapping of
physical 0x800000 (entry value 0x800083 = base 0x800000, PRESENT, WRITABLE,
SIZE). -/
def memTwoMegMapped : Nat → Nat := fun a =>
  if a = 4096 + 510 * 8 then 4096 + 3
  else if a = 4096 then 2 * 4096 + 3
  else if a = 2 * 4096 then 3 * 4096 + 3
  else if a = 3 * 4096 then 8388739
  else 0

/-- C1: the claim says that after `map(v, p, L, pfa)` succeeds at an aligned
level-L address, `resolve(v)` walks down from PML4 and returns
`Some(p + offset)`. The code's loop instead reads
`entry_at_level(Level::PT, vaddr)` — the level-0 entry address — on every
iteration. For a 2 MiB mapping (L = 1) that virtual address translates into
the freshly mapped data page itself, so `resolve` inspects page content
(zero here) and returns `None`; the walk the spec describes (embedded as
`resolveSpecVirt`) returns `Some p`. The 4 KiB case works by accident
because the repeated reads hit the correct PT entry. -/
theorem resolveFixedLevelBug :
    (mapVirt 510 4096 0 8388608 1 ⟨memChainToPD, []⟩).isOk = true ∧
    (MapResult.memOf (mapVirt 510 4096 0 8388608 1 ⟨memChainToPD, []⟩)).map
      (fun m => resolveVirt 510 4096 m 0) = some (some none) ∧
    (MapResult.memOf (mapVirt 510 4096 0 8388608 1 ⟨memChainToPD, []⟩)).map
      (fun m => resolveSpecVirt 510 4096 m 0) = some (some (some 8388608)) ∧
    resolveVirt 510 4096 memFourKMapped 0 = some (some (5 * 4096)) := by
  decide

/-- C2: the claim says a second `map` of an already-mapped address returns
the recoverable error `MappingExists` without modifying anything. For an
existing 4 KiB mapping (target level 0) the code instead reaches the
descend branch at level 0 — the PT entry is present but has no `SIZE` bit,
so `!flags.contains(SIZE | PRESENT)` holds — and panics at
`current_level.child().expect("we shouldn't be at the PT level yet")`.
Only the 2 MiB case (level 1) returns `MappingExists` as claimed, leaving
the entry and the allocator untouched. -/
theorem remapPanicsAtLevelZero :
    (mapVirt 510 4096 0 24576 0 ⟨memFourKMapped, [9]⟩).isPanic = true ∧
    (mapVirt 510 4096 0 10485760 1 ⟨memTwoMegMapped, []⟩).errOf
      = some MapError.mappingExists ∧
    (MapResult.memOf (mapVirt 510 4096 0 10485760 1 ⟨memTwoMegMapped, []⟩)).map
      (fun m => m (3 * 4096)) = some 8388739 ∧
    (mapVirt 510 4096 0 10485760 1 ⟨memTwoMegMapped, []⟩).freeOf = some [] := by
  decide

/-! ## Correctness of the recursive-mapping address arithmetic (C6)

`eaExt l` characterizes the four 9-bit index slices and the page offset of
`entry_at_level(l, vaddr)`: the PML4 slice is the recursive index, the
following slices are the higher slices of `vaddr`, and the offset selects
the level-l index of `vaddr` as an 8-byte entry offset. -/

lemma recStep_mod48 (recIdx x : Nat) (hr : recIdx < 512) :
    recStep recIdx x % 2 ^ 48 = x % 2 ^ 48 / 512 + recIdx * 2 ^ 39 := by
  simp only [recStep]; omega

lemma eaExt0 (recIdx vaddr : Nat) (hr : recIdx < 512) :
    entryAtLevel recIdx 0 vaddr / 2 ^ 39 % 512 = recIdx ∧
    entryAtLevel recIdx 0 vaddr / 2 ^ 30 % 512 = vaddr / 2 ^ 39 % 512 ∧
    entryAtLevel recIdx 0 vaddr / 2 ^ 21 % 512 = vaddr / 2 ^ 30 % 512 ∧
    entryAtLevel recIdx 0 vaddr / 2 ^ 12 % 512 = vaddr / 2 ^ 21 % 512 ∧
    entryAtLevel recIdx 0 vaddr % 2 ^ 12 = vaddr / 2 ^ 12 % 512 * 8 := by
  have hiter : recStepIter recIdx 1 vaddr = recStep recIdx vaddr := rfl
  have h1 := recStep_mod48 recIdx vaddr hr
  simp only [entryAtLevel, hiter]
  generalize recStep recIdx vaddr = y at h1
  by_cases h256 : 256 ≤ recIdx <;> simp only [h256, if_true, if_false] <;> omega

lemma eaExt1 (recIdx vaddr : Nat) (hr : recIdx < 512) :
    entryAtLevel recIdx 1 vaddr / 2 ^ 39 % 512 = recIdx ∧
    entryAtLevel recIdx 1 vaddr / 2 ^ 30 % 512 = recIdx ∧
    entryAtLevel recIdx 1 vaddr / 2 ^ 21 % 512 = vaddr / 2 ^ 39 % 512 ∧
    entryAtLevel recIdx 1 vaddr / 2 ^ 12 % 512 = vaddr / 2 ^ 30 % 512 ∧
    entryAtLevel recIdx 1 vaddr % 2 ^ 12 = vaddr / 2 ^ 21 % 512 * 8 := by
  have hiter : recStepIter recIdx 2 vaddr
      = recStep recIdx (recStep recIdx vaddr) := rfl
  have h1 := recStep_mod48 recIdx vaddr hr
  have h2 := recStep_mod48 recIdx (recStep recIdx vaddr) hr
  have hx : recStep recIdx (recStep recIdx vaddr) % 2 ^ 48
      = vaddr % 2 ^ 48 / 2 ^ 18 + recIdx * 2 ^ 30 + recIdx * 2 ^ 39 := by omega
  simp only [entryAtLevel, hiter]
  generalize recStep recIdx (recStep recIdx vaddr) = y at hx
  by_cases h256 : 256 ≤ recIdx <;> simp only [h256, if_true, if_false] <;> omega

lemma eaExt2 (recIdx vaddr : Nat) (hr : recIdx < 512) :
    entryAtLevel recIdx 2 vaddr / 2 ^ 39 % 512 = recIdx ∧
    entryAtLevel recIdx 2 vaddr / 2 ^ 30 % 512 = recIdx ∧
    entryAtLevel recIdx 2 vaddr / 2 ^ 21 % 512 = recIdx ∧
    entryAtLevel recIdx 2 vaddr / 2 ^ 12 % 512 = vaddr / 2 ^ 39 % 512 ∧
    entryAtLevel recIdx 2 vaddr % 2 ^ 12 = vaddr / 2 ^ 30 % 512 * 8 := by
  have hiter : recStepIter recIdx 3 vaddr
      = recStep recIdx (recStep recIdx (recStep recIdx vaddr)) := rfl
  have h1 := recStep_mod48 recIdx vaddr hr
  have h2 := recStep_mod48 recIdx (recStep recIdx vaddr) hr
  have h3 := recStep_mod48 recIdx (recStep recIdx (recStep recIdx vaddr)) hr
  have hx : recStep recIdx (recStep recIdx (recStep recIdx vaddr)) % 2 ^ 48
      = vaddr % 2 ^ 48 / 2 ^ 27 + recIdx * 2 ^ 21 + recIdx * 2 ^ 30
        + recIdx * 2 ^ 39 := by omega
  simp only [entryAtLevel, hiter]
  generalize recStep recIdx (recStep recIdx (recStep recIdx vaddr)) = y at hx
  by_cases h256 : 256 ≤ recIdx <;> simp only [h256, if_true, if_false] <;> omega

lemma eaExt3 (recIdx vaddr : Nat) (hr : recIdx < 512) :
    entryAtLevel recIdx 3 vaddr / 2 ^ 39 % 512 = recIdx ∧
    entryAtLevel recIdx 3 vaddr / 2 ^ 30 % 512 = recIdx ∧
    entryAtLevel recIdx 3 vaddr / 2 ^ 21 % 512 = recIdx ∧
    entryAtLevel recIdx 3 vaddr / 2 ^ 12 % 512 = recIdx ∧
    entryAtLevel recIdx 3 vaddr % 2 ^ 12 = vaddr / 2 ^ 39 % 512 * 8 := by
  have hiter : recStepIter recIdx 4 vaddr
      = recStep recIdx (recStep recIdx (recStep recIdx (recStep recIdx vaddr))) := rfl
  have h1 := recStep_mod48 recIdx vaddr hr
  have h2 := recStep_mod48 recIdx (recStep recIdx vaddr) hr
  have h3 := recStep_mod48 recIdx (recStep recIdx (recStep recIdx vaddr)) hr
  have h4 := recStep_mod48 recIdx
    (recStep recIdx (recStep recIdx (recStep recIdx vaddr))) hr
  have hx : recStep recIdx (recStep recIdx (recStep recIdx (recStep recIdx vaddr))) % 2 ^ 48
      = vaddr % 2 ^ 48 / 2 ^ 36 + recIdx * 2 ^ 12 + recIdx * 2 ^ 21
        + recIdx * 2 ^ 30 + recIdx * 2 ^ 39 := by
    omega
  simp only [entryAtLevel, hiter]
  generalize recStep recIdx (recStep recIdx (recStep recIdx (recStep recIdx vaddr))) = y at hx
  by_cases h256 : 256 ≤ recIdx <;> simp only [h256, if_true, if_false] <;> omega

/-! The translate lemmas: under a valid recursive PML4 entry and the needed
present/non-large links of the walk of `vaddr`, the MMU translation of
`entry_at_level(l, vaddr)` lands exactly on the level-l entry of `vaddr`
inside the level-l table of the walk. -/

lemma translate_ea3 (mem : Nat → Nat) (pml4 recIdx vaddr : Nat) (hr : recIdx < 512)
    (hp : entryPresent (mem (pml4 + recIdx * 8)) = true)
    (hs : entrySize (mem (pml4 + recIdx * 8)) = false)
    (hb : entryBase (mem (pml4 + recIdx * 8)) = pml4) :
    translate mem pml4 (entryAtLevel recIdx 3 vaddr)
      = some (pml4 + vaddr / 2 ^ 39 % 512 * 8) := by
  obtain ⟨i3, i2, i1, i0, ioff⟩ := eaExt3 recIdx vaddr hr
  simp only [translate, i3, i2, i1, i0, ioff, hb, hp, hs]
  simp

lemma translate_ea2 (mem : Nat → Nat) (pml4 recIdx vaddr : Nat) (hr : recIdx < 512)
    (hp : entryPresent (mem (pml4 + recIdx * 8)) = true)
    (hs : entrySize (mem (pml4 + recIdx * 8)) = false)
    (hb : entryBase (mem (pml4 + recIdx * 8)) = pml4)
    (h3p : entryPresent (mem (pml4 + vaddr / 2 ^ 39 % 512 * 8)) = true) :
    translate mem pml4 (entryAtLevel recIdx 2 vaddr)
      = some (entryBase (mem (pml4 + vaddr / 2 ^ 39 % 512 * 8))
          + vaddr / 2 ^ 30 % 512 * 8) := by
  obtain ⟨i3, i2, i1, i0, ioff⟩ := eaExt2 recIdx vaddr hr
  simp only [translate, i3, i2, i1, i0, ioff, hb, hp, hs, h3p]
  simp

lemma translate_ea1 (mem : Nat → Nat) (pml4 recIdx vaddr : Nat) (hr : recIdx < 512)
    (hp : entryPresent (mem (pml4 + recIdx * 8)) = true)
    (hs : entrySize (mem (pml4 + recIdx * 8)) = false)
    (hb : entryBase (mem (pml4 + recIdx * 8)) = pml4)
    (h3p : entryPresent (mem (pml4 + vaddr / 2 ^ 39 % 512 * 8)) = true)
    (h3s : entrySize (mem (pml4 + vaddr / 2 ^ 39 % 512 * 8)) = false)
    (h2p : entryPresent (mem (entryBase (mem (pml4 + vaddr / 2 ^ 39 % 512 * 8))
        + vaddr / 2 ^ 30 % 512 * 8)) = true) :
    translate mem pml4 (entryAtLevel recIdx 1 vaddr)
      = some (entryBase (mem (entryBase (mem (pml4 + vaddr / 2 ^ 39 % 512 * 8))
          + vaddr / 2 ^ 30 % 512 * 8)) + vaddr / 2 ^ 21 % 512 * 8) := by
  obtain ⟨i3, i2, i1, i0, ioff⟩ := eaExt1 recIdx vaddr hr
  simp only [translate, i3, i2, i1, i0, ioff, hb, hp, hs, h3p, h3s, h2p]
  simp

lemma translate_ea0 (mem : Nat → Nat) (pml4 recIdx vaddr : Nat) (hr : recIdx < 512)
    (hp : entryPresent (mem (pml4 + recIdx * 8)) = true)
    (_hs : entrySize (mem (pml4 + recIdx * 8)) = false)
    (hb : entryBase (mem (pml4 + recIdx * 8)) = pml4)
    (h3p : entryPresent (mem (pml4 + vaddr / 2 ^ 39 % 512 * 8)) = true)
    (h3s : entrySize (mem (pml4 + vaddr / 2 ^ 39 % 512 * 8)) = false)
    (h2p : entryPresent (mem (entryBase (mem (pml4 + vaddr / 2 ^ 39 % 512 * 8))
        + vaddr / 2 ^ 30 % 512 * 8)) = true)
    (h2s : entrySize (mem (entryBase (mem (pml4 + vaddr / 2 ^ 39 % 512 * 8))
        + vaddr / 2 ^ 30 % 512 * 8)) = false)
    (h1p : entryPresent (mem (entryBase (mem (entryBase (mem (pml4 + vaddr / 2 ^ 39 % 512 * 8))
        + vaddr / 2 ^ 30 % 512 * 8)) + vaddr / 2 ^ 21 % 512 * 8)) = true) :
    translate mem pml4 (entryAtLevel recIdx 0 vaddr)
      = some (entryBase (mem (entryBase (mem (entryBase (mem (pml4 + vaddr / 2 ^ 39 % 512 * 8))
          + vaddr / 2 ^ 30 % 512 * 8)) + vaddr / 2 ^ 21 % 512 * 8))
          + vaddr / 2 ^ 12 % 512 * 8) := by
  obtain ⟨i3, i2, i1, i0, ioff⟩ := eaExt0 recIdx vaddr hr
  simp only [translate, i3, i2, i1, i0, ioff, hb, hp, h3p, h3s, h2p, h2s, h1p]
  simp

/-! Generic translation walk, table-range slice arithmetic, the freshly
linked intermediate-table entry, and the effect of zeroing a new table
through its recursively mapped address. -/

lemma translate_walk (mem : Nat → Nat) (pml4 va b3 b2 b1 b0 : Nat)
    (h3 : va / 2 ^ 39 % 512 = b3) (h2 : va / 2 ^ 30 % 512 = b2)
    (h1 : va / 2 ^ 21 % 512 = b1) (h0 : va / 2 ^ 12 % 512 = b0)
    (e3p : entryPresent (mem (pml4 + b3 * 8)) = true)
    (e2p : entryPresent (mem (entryBase (mem (pml4 + b3 * 8)) + b2 * 8)) = true)
    (e2s : entrySize (mem (entryBase (mem (pml4 + b3 * 8)) + b2 * 8)) = false)
    (e1p : entryPresent (mem (entryBase (mem (entryBase (mem (pml4 + b3 * 8))
        + b2 * 8)) + b1 * 8)) = true)
    (e1s : entrySize (mem (entryBase (mem (entryBase (mem (pml4 + b3 * 8))
        + b2 * 8)) + b1 * 8)) = false)
    (e0p : entryPresent (mem (entryBase (mem (entryBase (mem (entryBase
        (mem (pml4 + b3 * 8)) + b2 * 8)) + b1 * 8)) + b0 * 8)) = true) :
    translate mem pml4 va
      = some (entryBase (mem (entryBase (mem (entryBase (mem (entryBase
          (mem (pml4 + b3 * 8)) + b2 * 8)) + b1 * 8)) + b0 * 8)) + va % 2 ^ 12) := by
  simp only [translate, h3, h2, h1, h0, e3p, e2p, e2s, e1p, e1s, e0p]
  simp

lemma table_slice (ea i : Nat) (hi : i < 512) :
    (ea / 4096 * 4096 + 8 * i) / 2 ^ 39 % 512 = ea / 2 ^ 39 % 512 ∧
    (ea / 4096 * 4096 + 8 * i) / 2 ^ 30 % 512 = ea / 2 ^ 30 % 512 ∧
    (ea / 4096 * 4096 + 8 * i) / 2 ^ 21 % 512 = ea / 2 ^ 21 % 512 ∧
    (ea / 4096 * 4096 + 8 * i) / 2 ^ 12 % 512 = ea / 2 ^ 12 % 512 ∧
    (ea / 4096 * 4096 + 8 * i) % 2 ^ 12 = 8 * i := by
  omega

lemma newTableEntry (f : Nat) (hf : f < 2 ^ 40) :
    entryPresent (entrySetFlags (entrySetBase 0 (f * 4096)) 3) = true ∧
    entrySize (entrySetFlags (entrySetBase 0 (f * 4096)) 3) = false ∧
    entryBase (entrySetFlags (entrySetBase 0 (f * 4096)) 3) = f * 4096 := by
  simp only [entryPresent, entrySize, entryBase, entrySetBase, entrySetFlags]
  constructor
  · simp only [decide_eq_true_eq]
    omega
  constructor
  · simp only [decide_eq_false_iff_not]
    omega
  · omega

lemma memsetZero_spec (mem : Nat → Nat) (pml4 tva pa : Nat)
    (hpa : pa % 4096 = 0)
    (htr : ∀ m : Nat → Nat, (∀ a, ¬(pa ≤ a ∧ a < pa + 4096) → m a = mem a) →
      ∀ i, i < 512 → translate m pml4 (tva + 8 * i) = some (pa + 8 * i)) :
    ∀ n, n ≤ 512 →
      ∃ m2, memsetZero mem pml4 tva n = some m2 ∧
        ∀ a, m2 a = if pa ≤ a ∧ a < pa + 8 * n ∧ a % 8 = 0 then 0 else mem a := by
  intro n
  induction n with
  | zero =>
    intro _
    refine ⟨mem, rfl, ?_⟩
    intro a
    rw [if_neg]
    omega
  | succ n ih =>
    intro hn
    obtain ⟨m2, hm2, hprof⟩ := ih (by omega)
    have hagree : ∀ a, ¬(pa ≤ a ∧ a < pa + 4096) → m2 a = mem a := by
      intro a ha
      rw [hprof a, if_neg]
      omega
    have htr2 := htr m2 hagree n (by omega)
    refine ⟨fun a => if a = pa + 8 * n then 0 else m2 a, ?_, ?_⟩
    · simp only [memsetZero, hm2, writeQ, htr2]
    · intro a
      show (if a = pa + 8 * n then 0 else m2 a)
        = if pa ≤ a ∧ a < pa + 8 * (n + 1) ∧ a % 8 = 0 then 0 else mem a
      by_cases he : a = pa + 8 * n
      · subst he
        rw [if_pos rfl, if_pos (by omega)]
      · rw [if_neg he, hprof a]
        by_cases h1 : pa ≤ a ∧ a < pa + 8 * n ∧ a % 8 = 0
        · rw [if_pos h1, if_pos (by omega)]
        · rw [if_neg h1, if_neg (by omega)]

/-! ## Rollback on allocation failure (C6) -/

lemma entryBase_align (e : Nat) : entryBase e % 4096 = 0 := by
  unfold entryBase; omega

lemma entryBase_lt (e : Nat) : entryBase e < 2 ^ 52 := by
  unfold entryBase; omega

lemma sizeAnd_false {e : Nat} (h : (entrySize e && entryPresent e) = false)
    (hp : entryPresent e = true) : entrySize e = false := by
  cases hsz : entrySize e
  · rfl
  · rw [hsz, hp] at h
    simp at h

lemma notInFrame (c g off : Nat) (hal : c % 4096 = 0) (hne : g * 4096 ≠ c)
    (hoff : off < 4096) :
    ¬(g * 4096 ≤ c + off ∧ c + off < g * 4096 + 4096) := by
  omega

lemma idxLt512 (l vaddr : Nat) : indexAtLevel l vaddr < 512 := by
  unfold indexAtLevel; omega

/-- Well-formedness of the page-table frames reachable along the walk of
`vaddr` from the level-`l` table `t` downwards: each table base is
4096-aligned, below 2^52, distinct from every free frame of the allocator,
and distinct from all tables above it (`above`). -/
def levelInv (mem : Nat → Nat) (vaddr : Nat) (free : List Nat) :
    Nat → Nat → List Nat → Prop
  | 0, t, above =>
      (∀ g ∈ free, g * 4096 ≠ t) ∧ t % 4096 = 0 ∧ t < 2 ^ 52 ∧ t ∉ above
  | cl + 1, t, above =>
      ((∀ g ∈ free, g * 4096 ≠ t) ∧ t % 4096 = 0 ∧ t < 2 ^ 52 ∧ t ∉ above) ∧
      (entryPresent (mem (t + indexAtLevel (cl + 1) vaddr * 8)) = true →
        entrySize (mem (t + indexAtLevel (cl + 1) vaddr * 8)) = false →
        levelInv mem vaddr free cl
          (entryBase (mem (t + indexAtLevel (cl + 1) vaddr * 8))) (t :: above))

/-- At the PT level the only `Err` outcome of `map_impl_rec` is
`MappingExists`, returned before any mutation: the state is unchanged. -/
lemma mapErrAux0 (recIdx pml4 vaddr paddr targetLevel : Nat) (st : MapState)
    (e : MapError) (st2 : MapState)
    (h : mapImplRec recIdx pml4 vaddr paddr targetLevel st 0 = .err e st2) :
    st2 = st := by
  rw [mapImplRec] at h
  rw [mapStepPT] at h
  split at h
  · exact MapResult.noConfusion h
  · split_ifs at h with h1 h2
    · split at h
      · exact MapResult.noConfusion h
      · exact MapResult.noConfusion h
    · injection h with h3 h4
      exact h4.symm

lemma mapErrAux1 (recIdx pml4 vaddr paddr targetLevel : Nat) (st : MapState)
    (T2 T1 : Nat)
    (hr : recIdx < 512)
    (hp : entryPresent (st.mem (pml4 + recIdx * 8)) = true)
    (hs : entrySize (st.mem (pml4 + recIdx * 8)) = false)
    (hb : entryBase (st.mem (pml4 + recIdx * 8)) = pml4)
    (hni : vaddr / 2 ^ 39 % 512 ≠ recIdx)
    (hnodup : st.free.Nodup)
    (hfb : ∀ g ∈ st.free, g < 2 ^ 40)
    (hT2 : T2 = entryBase (st.mem (pml4 + vaddr / 2 ^ 39 % 512 * 8)))
    (hT1 : T1 = entryBase (st.mem (T2 + vaddr / 2 ^ 30 % 512 * 8)))
    (h3p : entryPresent (st.mem (pml4 + vaddr / 2 ^ 39 % 512 * 8)) = true)
    (h3s : entrySize (st.mem (pml4 + vaddr / 2 ^ 39 % 512 * 8)) = false)
    (h2p : entryPresent (st.mem (T2 + vaddr / 2 ^ 30 % 512 * 8)) = true)
    (h2s : entrySize (st.mem (T2 + vaddr / 2 ^ 30 % 512 * 8)) = false)
    (hfp : ∀ g ∈ st.free, g * 4096 ≠ pml4)
    (hap : pml4 % 4096 = 0)
    (hfT2 : ∀ g ∈ st.free, g * 4096 ≠ T2)
    (hT2p : T2 ≠ pml4)
    (hInv : levelInv st.mem vaddr st.free 1 T1 [T2, pml4]) :
    ∀ e st2, mapImplRec recIdx pml4 vaddr paddr targetLevel st 1 = .err e st2 →
      st2.free = st.free ∧
      ∀ a, (∀ g ∈ st.free, ¬(g * 4096 ≤ a ∧ a < g * 4096 + 4096)) →
        st2.mem a = st.mem a := by
  obtain ⟨⟨hfT1, haT1, hltT1, hnotT1⟩⟩ := hInv
  have hT1T2 : T1 ≠ T2 := by simp at hnotT1; exact hnotT1.1
  have hT1p : T1 ≠ pml4 := by simp at hnotT1; exact hnotT1.2
  have haT2 : T2 % 4096 = 0 := hT2 ▸ entryBase_align _
  intro e st2 h
  have htr1 : translate st.mem pml4 (entryAtLevel recIdx 1 vaddr)
      = some (T1 + vaddr / 2 ^ 21 % 512 * 8) := by
    rw [hT1, hT2]
    rw [hT2] at h2p
    exact translate_ea1 st.mem pml4 recIdx vaddr hr hp hs hb h3p h3s h2p
  have hread : readQ st.mem pml4 (entryAtLevel recIdx 1 vaddr)
      = some (st.mem (T1 + vaddr / 2 ^ 21 % 512 * 8)) := by
    rw [readQ, htr1]
    rfl
  have hunf : mapImplRec recIdx pml4 vaddr paddr targetLevel st 1
      = mapStepUpper recIdx pml4 vaddr paddr targetLevel 0
          (fun stx => mapImplRec recIdx pml4 vaddr paddr targetLevel stx 0) st := rfl
  rw [hunf, mapStepUpper] at h
  simp only [Nat.zero_add] at h
  split at h
  · rename_i heq
    rw [hread] at heq
    exact Option.noConfusion heq
  rename_i entry heq
  rw [hread] at heq
  injection heq with hent
  subst hent
  split_ifs at h with hA hC
  · -- install branch: ok or panic, never err
    split at h
    · exact MapResult.noConfusion h
    · exact MapResult.noConfusion h
  · -- descend, entry not present: allocation path
    split at h
    · -- free list empty: OutOfMemory, state unchanged
      injection h with h1 h2
      subst h2
      exact ⟨rfl, fun a _ => rfl⟩
    · rename_i f rest hfree
      -- the install of the intermediate entry
      have hw : writeQ st.mem pml4 (entryAtLevel recIdx 1 vaddr)
          (entrySetFlags (entrySetBase 0 (f * 4096)) 3)
          = some (fun a => if a = T1 + vaddr / 2 ^ 21 % 512 * 8 then
              entrySetFlags (entrySetBase 0 (f * 4096)) 3 else st.mem a) := by
        rw [writeQ, htr1]
      have hfmem : f ∈ st.free := by rw [hfree]; exact List.mem_cons_self f rest
      have hflt : f < 2 ^ 40 := hfb f hfmem
      obtain ⟨hnP, hnS, hnB⟩ := newTableEntry f hflt
      -- reads of the walk chain survive the entry write and any change
      -- confined to the fresh frame
      have hreads : ∀ m : Nat → Nat,
          (∀ a, ¬(f * 4096 ≤ a ∧ a < f * 4096 + 4096) →
            m a = (fun a => if a = T1 + vaddr / 2 ^ 21 % 512 * 8 then
              entrySetFlags (entrySetBase 0 (f * 4096)) 3 else st.mem a) a) →
          m (pml4 + recIdx * 8) = st.mem (pml4 + recIdx * 8) ∧
          m (pml4 + vaddr / 2 ^ 39 % 512 * 8)
            = st.mem (pml4 + vaddr / 2 ^ 39 % 512 * 8) ∧
          m (T2 + vaddr / 2 ^ 30 % 512 * 8)
            = st.mem (T2 + vaddr / 2 ^ 30 % 512 * 8) ∧
          m (T1 + vaddr / 2 ^ 21 % 512 * 8)
            = entrySetFlags (entrySetBase 0 (f * 4096)) 3 := by
        intro m hag
        have hoff1 : recIdx * 8 < 4096 := by omega
        have hoff2 : vaddr / 2 ^ 39 % 512 * 8 < 4096 := by omega
        have hoff3 : vaddr / 2 ^ 30 % 512 * 8 < 4096 := by omega
        have hoff4 : vaddr / 2 ^ 21 % 512 * 8 < 4096 := by omega
        refine ⟨?_, ?_, ?_, ?_⟩
        · rw [hag _ (notInFrame pml4 f _ hap (hfp f hfmem) hoff1)]
          simp only
          rw [if_neg (show pml4 + recIdx * 8 ≠ T1 + vaddr / 2 ^ 21 % 512 * 8 by omega)]
        · rw [hag _ (notInFrame pml4 f _ hap (hfp f hfmem) hoff2)]
          simp only
          rw [if_neg (show pml4 + vaddr / 2 ^ 39 % 512 * 8
            ≠ T1 + vaddr / 2 ^ 21 % 512 * 8 by omega)]
        · rw [hag _ (notInFrame T2 f _ haT2 (hfT2 f hfmem) hoff3)]
          simp only
          rw [if_neg (show T2 + vaddr / 2 ^ 30 % 512 * 8
            ≠ T1 + vaddr / 2 ^ 21 % 512 * 8 by omega)]
        · rw [hag _ (notInFrame T1 f _ haT1 (hfT1 f hfmem) hoff4)]
          simp
      -- zeroing the fresh table goes through its recursively mapped address
      have htrmset : ∀ m : Nat → Nat,
          (∀ a, ¬(f * 4096 ≤ a ∧ a < f * 4096 + 4096) →
            m a = (fun a => if a = T1 + vaddr / 2 ^ 21 % 512 * 8 then
              entrySetFlags (entrySetBase 0 (f * 4096)) 3 else st.mem a) a) →
          ∀ i, i < 512 →
            translate m pml4 (tableAtLevel recIdx 0 vaddr + 8 * i)
              = some (f * 4096 + 8 * i) := by
        intro m hag i hi
        obtain ⟨hrd1, hrd2, hrd3, hrd4⟩ := hreads m hag
        obtain ⟨x3, x2, x1, x0, xoff⟩ := eaExt0 recIdx vaddr hr
        obtain ⟨s3, s2, s1, s0, soff⟩ := table_slice (entryAtLevel recIdx 0 vaddr) i hi
        have e3p : entryPresent (m (pml4 + recIdx * 8)) = true := by
          rw [hrd1]; exact hp
        have eb3 : entryBase (m (pml4 + recIdx * 8)) = pml4 := by
          rw [hrd1]; exact hb
        have e2p : entryPresent (m (entryBase (m (pml4 + recIdx * 8))
            + vaddr / 2 ^ 39 % 512 * 8)) = true := by
          rw [eb3, hrd2]; exact h3p
        have e2s : entrySize (m (entryBase (m (pml4 + recIdx * 8))
            + vaddr / 2 ^ 39 % 512 * 8)) = false := by
          rw [eb3, hrd2]; exact h3s
        have eb2 : entryBase (m (entryBase (m (pml4 + recIdx * 8))
            + vaddr / 2 ^ 39 % 512 * 8)) = T2 := by
          rw [eb3, hrd2, ← hT2]
        have e1p : entryPresent (m (entryBase (m (entryBase (m (pml4 + recIdx * 8))
            + vaddr / 2 ^ 39 % 512 * 8)) + vaddr / 2 ^ 30 % 512 * 8)) = true := by
          rw [eb2, hrd3]; exact h2p
        have e1s : entrySize (m (entryBase (m (entryBase (m (pml4 + recIdx * 8))
            + vaddr / 2 ^ 39 % 512 * 8)) + vaddr / 2 ^ 30 % 512 * 8)) = false := by
          rw [eb2, hrd3]; exact h2s
        have eb1 : entryBase (m (entryBase (m (entryBase (m (pml4 + recIdx * 8))
            + vaddr / 2 ^ 39 % 512 * 8)) + vaddr / 2 ^ 30 % 512 * 8)) = T1 := by
          rw [eb2, hrd3, ← hT1]
        have e0p : entryPresent (m (entryBase (m (entryBase (m (entryBase
            (m (pml4 + recIdx * 8)) + vaddr / 2 ^ 39 % 512 * 8))
            + vaddr / 2 ^ 30 % 512 * 8)) + vaddr / 2 ^ 21 % 512 * 8)) = true := by
          rw [eb1, hrd4]; exact hnP
        have eb0 : entryBase (m (entryBase (m (entryBase (m (entryBase
            (m (pml4 + recIdx * 8)) + vaddr / 2 ^ 39 % 512 * 8))
            + vaddr / 2 ^ 30 % 512 * 8)) + vaddr / 2 ^ 21 % 512 * 8)) = f * 4096 := by
          rw [eb1, hrd4]; exact hnB
        have hwk := translate_walk m pml4
          (entryAtLevel recIdx 0 vaddr / 4096 * 4096 + 8 * i)
          recIdx (vaddr / 2 ^ 39 % 512) (vaddr / 2 ^ 30 % 512) (vaddr / 2 ^ 21 % 512)
          (s3.trans x3) (s2.trans x2) (s1.trans x1) (s0.trans x0)
          e3p e2p e2s e1p e1s e0p
        rw [tableAtLevel, hwk, eb0, soff]
      obtain ⟨m2, hm2, hm2prof⟩ := memsetZero_spec
        (fun a => if a = T1 + vaddr / 2 ^ 21 % 512 * 8 then
          entrySetFlags (entrySetBase 0 (f * 4096)) 3 else st.mem a)
        pml4 (tableAtLevel recIdx 0 vaddr) (f * 4096) (by omega) htrmset
        512 (Nat.le_refl 512)
      -- reduce the write match in h
      split at h
      · rename_i heq1
        rw [hw] at heq1
        exact Option.noConfusion heq1
      rename_i m1 heq1
      rw [hw] at heq1
      injection heq1 with hm1
      subst hm1
      -- reduce the memset match
      split at h
      · rename_i heq2
        rw [hm2] at heq2
        exact Option.noConfusion heq2
      rename_i m2x heq2
      rw [hm2] at heq2
      injection heq2 with hm2x
      subst hm2x
      -- the recursive call at level 0
      split at h
      · exact MapResult.noConfusion h
      · rename_i e3 st3 heq3
        have heq3x : mapImplRec recIdx pml4 vaddr paddr targetLevel ⟨m2, rest⟩ 0
            = .err e3 st3 := heq3
        have hst3 := mapErrAux0 recIdx pml4 vaddr paddr targetLevel
          ⟨m2, rest⟩ e3 st3 heq3x
        subst hst3
        -- restore the old entry; the chain reads still translate the same way
        have hag2 : ∀ a, ¬(f * 4096 ≤ a ∧ a < f * 4096 + 4096) →
            m2 a = (fun a => if a = T1 + vaddr / 2 ^ 21 % 512 * 8 then
              entrySetFlags (entrySetBase 0 (f * 4096)) 3 else st.mem a) a := by
          intro a ha
          rw [hm2prof a, if_neg (by omega)]
        obtain ⟨hrd1, hrd2, hrd3, hrd4⟩ := hreads m2 hag2
        have hp2 : entryPresent (m2 (pml4 + recIdx * 8)) = true := by
          rw [hrd1]; exact hp
        have hs2 : entrySize (m2 (pml4 + recIdx * 8)) = false := by
          rw [hrd1]; exact hs
        have hb2 : entryBase (m2 (pml4 + recIdx * 8)) = pml4 := by
          rw [hrd1]; exact hb
        have h3p2 : entryPresent (m2 (pml4 + vaddr / 2 ^ 39 % 512 * 8)) = true := by
          rw [hrd2]; exact h3p
        have h3s2 : entrySize (m2 (pml4 + vaddr / 2 ^ 39 % 512 * 8)) = false := by
          rw [hrd2]; exact h3s
        have h2p2 : entryPresent (m2 (entryBase (m2 (pml4 + vaddr / 2 ^ 39 % 512 * 8))
            + vaddr / 2 ^ 30 % 512 * 8)) = true := by
          rw [hrd2, ← hT2, hrd3]; exact h2p
        have htrx := translate_ea1 m2 pml4 recIdx vaddr hr hp2 hs2 hb2 h3p2 h3s2 h2p2
        have hTT : entryBase (m2 (entryBase (m2 (pml4 + vaddr / 2 ^ 39 % 512 * 8))
            + vaddr / 2 ^ 30 % 512 * 8)) = T1 := by
          rw [hrd2, ← hT2, hrd3, ← hT1]
        have htr2 : translate m2 pml4 (entryAtLevel recIdx 1 vaddr)
            = some (T1 + vaddr / 2 ^ 21 % 512 * 8) := by
          rw [htrx, hTT]
        have hw2 : writeQ m2 pml4 (entryAtLevel recIdx 1 vaddr)
            (st.mem (T1 + vaddr / 2 ^ 21 % 512 * 8))
            = some (fun a => if a = T1 + vaddr / 2 ^ 21 % 512 * 8 then
                st.mem (T1 + vaddr / 2 ^ 21 % 512 * 8) else m2 a) := by
          rw [writeQ, htr2]
        split at h
        · rename_i heq4
          rw [hw2] at heq4
          exact Option.noConfusion heq4
        rename_i m3 heq4
        rw [hw2] at heq4
        injection heq4 with hm3
        subst hm3
        injection h with he hst2
        subst hst2
        constructor
        · exact hfree.symm
        · intro a ha
          show (if a = T1 + vaddr / 2 ^ 21 % 512 * 8 then
              st.mem (T1 + vaddr / 2 ^ 21 % 512 * 8) else m2 a) = st.mem a
          by_cases hax : a = T1 + vaddr / 2 ^ 21 % 512 * 8
          · rw [if_pos hax, hax]
          · rw [if_neg hax]
            rw [hag2 a (ha f hfmem)]
            simp only
            rw [if_neg hax]
      · exact MapResult.noConfusion h
  · -- descend through the present entry: level 0
    have h' : mapImplRec recIdx pml4 vaddr paddr targetLevel st 0 = .err e st2 := h
    have := mapErrAux0 recIdx pml4 vaddr paddr targetLevel st e st2 h'
    subst this
    exact ⟨rfl, fun a _ => rfl⟩
  · -- present large page: MappingExists, state unchanged
    injection h with h1 h2
    subst h2
    exact ⟨rfl, fun a _ => rfl⟩


lemma mapErrAux2 (recIdx pml4 vaddr paddr targetLevel : Nat) (st : MapState)
    (T2 : Nat)
    (hr : recIdx < 512)
    (hp : entryPresent (st.mem (pml4 + recIdx * 8)) = true)
    (hs : entrySize (st.mem (pml4 + recIdx * 8)) = false)
    (hb : entryBase (st.mem (pml4 + recIdx * 8)) = pml4)
    (hni : vaddr / 2 ^ 39 % 512 ≠ recIdx)
    (hnodup : st.free.Nodup)
    (hfb : ∀ g ∈ st.free, g < 2 ^ 40)
    (hT2 : T2 = entryBase (st.mem (pml4 + vaddr / 2 ^ 39 % 512 * 8)))
    (h3p : entryPresent (st.mem (pml4 + vaddr / 2 ^ 39 % 512 * 8)) = true)
    (h3s : entrySize (st.mem (pml4 + vaddr / 2 ^ 39 % 512 * 8)) = false)
    (hfp : ∀ g ∈ st.free, g * 4096 ≠ pml4)
    (hap : pml4 % 4096 = 0)
    (hInv : levelInv st.mem vaddr st.free 2 T2 [pml4]) :
    ∀ e st2, mapImplRec recIdx pml4 vaddr paddr targetLevel st 2 = .err e st2 →
      st2.free = st.free ∧
      ∀ a, (∀ g ∈ st.free, ¬(g * 4096 ≤ a ∧ a < g * 4096 + 4096)) →
        st2.mem a = st.mem a := by
  obtain ⟨⟨hfT2, haT2, hltT2, hnotT2⟩, hclause⟩ := hInv
  have hT2p : T2 ≠ pml4 := by simpa using hnotT2
  intro e st2 h
  have htr1 : translate st.mem pml4 (entryAtLevel recIdx 2 vaddr)
      = some (T2 + vaddr / 2 ^ 30 % 512 * 8) := by
    rw [hT2]
    exact translate_ea2 st.mem pml4 recIdx vaddr hr hp hs hb h3p
  have hread : readQ st.mem pml4 (entryAtLevel recIdx 2 vaddr)
      = some (st.mem (T2 + vaddr / 2 ^ 30 % 512 * 8)) := by
    rw [readQ, htr1]
    rfl
  have hunf : mapImplRec recIdx pml4 vaddr paddr targetLevel st 2
      = mapStepUpper recIdx pml4 vaddr paddr targetLevel 1
          (fun stx => mapImplRec recIdx pml4 vaddr paddr targetLevel stx 1) st := rfl
  rw [hunf, mapStepUpper] at h
  simp only [show (1 + 1 : Nat) = 2 by norm_num] at h
  split at h
  · rename_i heq
    rw [hread] at heq
    exact Option.noConfusion heq
  rename_i entry heq
  rw [hread] at heq
  injection heq with hent
  subst hent
  split_ifs at h with hA hB hC
  · split at h
    · exact MapResult.noConfusion h
    · exact MapResult.noConfusion h
  · -- descend, entry not present: allocation path
    split at h
    · injection h with h1 h2
      subst h2
      exact ⟨rfl, fun a _ => rfl⟩
    · rename_i f rest hfree
      have hw : writeQ st.mem pml4 (entryAtLevel recIdx 2 vaddr)
          (entrySetFlags (entrySetBase 0 (f * 4096)) 3)
          = some (fun a => if a = T2 + vaddr / 2 ^ 30 % 512 * 8 then
              entrySetFlags (entrySetBase 0 (f * 4096)) 3 else st.mem a) := by
        rw [writeQ, htr1]
      have hfmem : f ∈ st.free := by rw [hfree]; exact List.mem_cons_self f rest
      have hflt : f < 2 ^ 40 := hfb f hfmem
      obtain ⟨hnP, hnS, hnB⟩ := newTableEntry f hflt
      have hreads : ∀ m : Nat → Nat,
          (∀ a, ¬(f * 4096 ≤ a ∧ a < f * 4096 + 4096) →
            m a = (fun a => if a = T2 + vaddr / 2 ^ 30 % 512 * 8 then
              entrySetFlags (entrySetBase 0 (f * 4096)) 3 else st.mem a) a) →
          m (pml4 + recIdx * 8) = st.mem (pml4 + recIdx * 8) ∧
          m (pml4 + vaddr / 2 ^ 39 % 512 * 8)
            = st.mem (pml4 + vaddr / 2 ^ 39 % 512 * 8) ∧
          m (T2 + vaddr / 2 ^ 30 % 512 * 8)
            = entrySetFlags (entrySetBase 0 (f * 4096)) 3 := by
        intro m hag
        have hoff1 : recIdx * 8 < 4096 := by omega
        have hoff2 : vaddr / 2 ^ 39 % 512 * 8 < 4096 := by omega
        have hoff3 : vaddr / 2 ^ 30 % 512 * 8 < 4096 := by omega
        refine ⟨?_, ?_, ?_⟩
        · rw [hag _ (notInFrame pml4 f _ hap (hfp f hfmem) hoff1)]
          simp only
          rw [if_neg (show pml4 + recIdx * 8 ≠ T2 + vaddr / 2 ^ 30 % 512 * 8 by omega)]
        · rw [hag _ (notInFrame pml4 f _ hap (hfp f hfmem) hoff2)]
          simp only
          rw [if_neg (show pml4 + vaddr / 2 ^ 39 % 512 * 8
            ≠ T2 + vaddr / 2 ^ 30 % 512 * 8 by omega)]
        · rw [hag _ (notInFrame T2 f _ haT2 (hfT2 f hfmem) hoff3)]
          simp
      have htrmset : ∀ m : Nat → Nat,
          (∀ a, ¬(f * 4096 ≤ a ∧ a < f * 4096 + 4096) →
            m a = (fun a => if a = T2 + vaddr / 2 ^ 30 % 512 * 8 then
              entrySetFlags (entrySetBase 0 (f * 4096)) 3 else st.mem a) a) →
          ∀ i, i < 512 →
            translate m pml4 (tableAtLevel recIdx 1 vaddr + 8 * i)
              = some (f * 4096 + 8 * i) := by
        intro m hag i hi
        obtain ⟨hrd1, hrd2, hrd3⟩ := hreads m hag
        obtain ⟨x3, x2, x1, x0, xoff⟩ := eaExt1 recIdx vaddr hr
        obtain ⟨s3, s2, s1, s0, soff⟩ := table_slice (entryAtLevel recIdx 1 vaddr) i hi
        have e3p : entryPresent (m (pml4 + recIdx * 8)) = true := by
          rw [hrd1]; exact hp
        have eb3 : entryBase (m (pml4 + recIdx * 8)) = pml4 := by
          rw [hrd1]; exact hb
        have e2p : entryPresent (m (entryBase (m (pml4 + recIdx * 8))
            + recIdx * 8)) = true := by
          rw [eb3, hrd1]; exact hp
        have e2s : entrySize (m (entryBase (m (pml4 + recIdx * 8))
            + recIdx * 8)) = false := by
          rw [eb3, hrd1]; exact hs
        have eb2 : entryBase (m (entryBase (m (pml4 + recIdx * 8))
            + recIdx * 8)) = pml4 := by
          rw [eb3, hrd1]; exact hb
        have e1p : entryPresent (m (entryBase (m (entryBase (m (pml4 + recIdx * 8))
            + recIdx * 8)) + vaddr / 2 ^ 39 % 512 * 8)) = true := by
          rw [eb2, hrd2]; exact h3p
        have e1s : entrySize (m (entryBase (m (entryBase (m (pml4 + recIdx * 8))
            + recIdx * 8)) + vaddr / 2 ^ 39 % 512 * 8)) = false := by
          rw [eb2, hrd2]; exact h3s
        have eb1 : entryBase (m (entryBase (m (entryBase (m (pml4 + recIdx * 8))
            + recIdx * 8)) + vaddr / 2 ^ 39 % 512 * 8)) = T2 := by
          rw [eb2, hrd2, ← hT2]
        have e0p : entryPresent (m (entryBase (m (entryBase (m (entryBase
            (m (pml4 + recIdx * 8)) + recIdx * 8)) + vaddr / 2 ^ 39 % 512 * 8))
            + vaddr / 2 ^ 30 % 512 * 8)) = true := by
          rw [eb1, hrd3]; exact hnP
        have eb0 : entryBase (m (entryBase (m (entryBase (m (entryBase
            (m (pml4 + recIdx * 8)) + recIdx * 8)) + vaddr / 2 ^ 39 % 512 * 8))
            + vaddr / 2 ^ 30 % 512 * 8)) = f * 4096 := by
          rw [eb1, hrd3]; exact hnB
        have hwk := translate_walk m pml4
          (entryAtLevel recIdx 1 vaddr / 4096 * 4096 + 8 * i)
          recIdx recIdx (vaddr / 2 ^ 39 % 512) (vaddr / 2 ^ 30 % 512)
          (s3.trans x3) (s2.trans x2) (s1.trans x1) (s0.trans x0)
          e3p e2p e2s e1p e1s e0p
        rw [tableAtLevel, hwk, eb0, soff]
      obtain ⟨m2, hm2, hm2prof⟩ := memsetZero_spec
        (fun a => if a = T2 + vaddr / 2 ^ 30 % 512 * 8 then
          entrySetFlags (entrySetBase 0 (f * 4096)) 3 else st.mem a)
        pml4 (tableAtLevel recIdx 1 vaddr) (f * 4096) (by omega) htrmset
        512 (Nat.le_refl 512)
      split at h
      · rename_i heq1
        rw [hw] at heq1
        exact Option.noConfusion heq1
      rename_i m1 heq1
      rw [hw] at heq1
      injection heq1 with hm1
      subst hm1
      split at h
      · rename_i heq2
        rw [hm2] at heq2
        exact Option.noConfusion heq2
      rename_i m2x heq2
      rw [hm2] at heq2
      injection heq2 with hm2x
      subst hm2x
      split at h
      · exact MapResult.noConfusion h
      · rename_i e3 st3 heq3
        have hag2 : ∀ a, ¬(f * 4096 ≤ a ∧ a < f * 4096 + 4096) →
            m2 a = (fun a => if a = T2 + vaddr / 2 ^ 30 % 512 * 8 then
              entrySetFlags (entrySetBase 0 (f * 4096)) 3 else st.mem a) a := by
          intro a ha
          rw [hm2prof a, if_neg (by omega)]
        obtain ⟨hrd1, hrd2, hrd3⟩ := hreads m2 hag2
        have hfrest : ∀ g ∈ rest, g ∈ st.free := by
          intro g hg
          rw [hfree]
          exact List.mem_cons_of_mem f hg
        have hnodup2 : (f :: rest).Nodup := hfree ▸ hnodup
        have hfnotin : f ∉ rest := (List.nodup_cons.mp hnodup2).1
        have hrestnodup : rest.Nodup := (List.nodup_cons.mp hnodup2).2
        -- the recursive call: apply the level-1 lemma to the new state
        have heq3x : mapImplRec recIdx pml4 vaddr paddr targetLevel
            ⟨m2, rest⟩ 1 = .err e3 st3 := heq3
        have hp2 : entryPresent (m2 (pml4 + recIdx * 8)) = true := by
          rw [hrd1]; exact hp
        have hs2 : entrySize (m2 (pml4 + recIdx * 8)) = false := by
          rw [hrd1]; exact hs
        have hb2 : entryBase (m2 (pml4 + recIdx * 8)) = pml4 := by
          rw [hrd1]; exact hb
        have h3p2 : entryPresent (m2 (pml4 + vaddr / 2 ^ 39 % 512 * 8)) = true := by
          rw [hrd2]; exact h3p
        have h3s2 : entrySize (m2 (pml4 + vaddr / 2 ^ 39 % 512 * 8)) = false := by
          rw [hrd2]; exact h3s
        have hT2b : T2 = entryBase (m2 (pml4 + vaddr / 2 ^ 39 % 512 * 8)) := by
          rw [hrd2]; exact hT2
        have hT1b : (f * 4096 : Nat)
            = entryBase (m2 (T2 + vaddr / 2 ^ 30 % 512 * 8)) := by
          rw [hrd3]; exact hnB.symm
        have h2p2 : entryPresent (m2 (T2 + vaddr / 2 ^ 30 % 512 * 8)) = true := by
          rw [hrd3]; exact hnP
        have h2s2 : entrySize (m2 (T2 + vaddr / 2 ^ 30 % 512 * 8)) = false := by
          rw [hrd3]; exact hnS
        have hInv1 : levelInv m2 vaddr rest 1 (f * 4096) [T2, pml4] := by
          simp only [levelInv]
          refine ⟨⟨?_, by omega, by omega, ?_⟩, ?_⟩
          · intro g hg
            have : g ≠ f := fun hgf => hfnotin (hgf ▸ hg)
            omega
          · simp only [List.mem_cons, List.mem_singleton]
            push_neg
            exact ⟨hfT2 f hfmem, hfp f hfmem, by simp⟩
          · intro hpre _
            have hz : m2 (f * 4096 + indexAtLevel 1 vaddr * 8) = 0 := by
              rw [hm2prof]
              rw [if_pos]
              refine ⟨Nat.le_add_right _ _, ?_, by omega⟩
              have := idxLt512 1 vaddr
              omega
            rw [hz] at hpre
            exact absurd hpre (by decide)
        have hcons := mapErrAux1 recIdx pml4 vaddr paddr targetLevel
          ⟨m2, rest⟩ T2 (f * 4096) hr hp2 hs2 hb2 hni hrestnodup
          (fun g hg => hfb g (hfrest g hg)) hT2b hT1b h3p2 h3s2 h2p2 h2s2
          (fun g hg => hfp g (hfrest g hg)) hap
          (fun g hg => hfT2 g (hfrest g hg)) hT2p hInv1 e3 st3 heq3x
        obtain ⟨hfree3, hmem3⟩ := hcons
        -- restore: the chain reads on the post-recursion memory
        have hg3 : ∀ (c off : Nat), c % 4096 = 0 →
            (∀ g ∈ st.free, g * 4096 ≠ c) → off < 4096 →
            st3.mem (c + off) = m2 (c + off) := by
          intro c off hal hnf hoff
          apply hmem3
          intro g hg
          exact notInFrame c g off hal (hnf g (hfrest g hg)) hoff
        have hoff1 : recIdx * 8 < 4096 := by omega
        have hoff2 : vaddr / 2 ^ 39 % 512 * 8 < 4096 := by omega
        have hp3 : entryPresent (st3.mem (pml4 + recIdx * 8)) = true := by
          rw [hg3 pml4 _ hap hfp hoff1, hrd1]; exact hp
        have hs3 : entrySize (st3.mem (pml4 + recIdx * 8)) = false := by
          rw [hg3 pml4 _ hap hfp hoff1, hrd1]; exact hs
        have hb3 : entryBase (st3.mem (pml4 + recIdx * 8)) = pml4 := by
          rw [hg3 pml4 _ hap hfp hoff1, hrd1]; exact hb
        have h3p3 : entryPresent (st3.mem (pml4 + vaddr / 2 ^ 39 % 512 * 8)) = true := by
          rw [hg3 pml4 _ hap hfp hoff2, hrd2]; exact h3p
        have htrx := translate_ea2 st3.mem pml4 recIdx vaddr hr hp3 hs3 hb3 h3p3
        have hTT : entryBase (st3.mem (pml4 + vaddr / 2 ^ 39 % 512 * 8)) = T2 := by
          rw [hg3 pml4 _ hap hfp hoff2, hrd2, ← hT2]
        have htr2 : translate st3.mem pml4 (entryAtLevel recIdx 2 vaddr)
            = some (T2 + vaddr / 2 ^ 30 % 512 * 8) := by
          rw [htrx, hTT]
        have hw2 : writeQ st3.mem pml4 (entryAtLevel recIdx 2 vaddr)
            (st.mem (T2 + vaddr / 2 ^ 30 % 512 * 8))
            = some (fun a => if a = T2 + vaddr / 2 ^ 30 % 512 * 8 then
                st.mem (T2 + vaddr / 2 ^ 30 % 512 * 8) else st3.mem a) := by
          rw [writeQ, htr2]
        split at h
        · rename_i heq4
          rw [hw2] at heq4
          exact Option.noConfusion heq4
        rename_i m3 heq4
        rw [hw2] at heq4
        injection heq4 with hm3
        subst hm3
        injection h with he hst2
        subst hst2
        constructor
        · show f :: st3.free = st.free
          rw [hfree3, ← hfree]
        · intro a ha
          show (if a = T2 + vaddr / 2 ^ 30 % 512 * 8 then
              st.mem (T2 + vaddr / 2 ^ 30 % 512 * 8) else st3.mem a) = st.mem a
          by_cases hax : a = T2 + vaddr / 2 ^ 30 % 512 * 8
          · rw [if_pos hax, hax]
          · rw [if_neg hax]
            have h1 : st3.mem a = m2 a := by
              apply hmem3
              intro g hg
              exact ha g (hfrest g hg)
            rw [h1, hag2 a (ha f hfmem)]
            simp only
            rw [if_neg hax]
      · exact MapResult.noConfusion h
  · -- descend through the present entry: level 1
    have h2p : entryPresent (st.mem (T2 + vaddr / 2 ^ 30 % 512 * 8)) = true := by
      simpa using hC
    have h2s : entrySize (st.mem (T2 + vaddr / 2 ^ 30 % 512 * 8)) = false :=
      sizeAnd_false hB h2p
    have h' : mapImplRec recIdx pml4 vaddr paddr targetLevel st 1 = .err e st2 := h
    exact mapErrAux1 recIdx pml4 vaddr paddr targetLevel st T2
      (entryBase (st.mem (T2 + vaddr / 2 ^ 30 % 512 * 8)))
      hr hp hs hb hni hnodup hfb hT2 rfl h3p h3s h2p h2s hfp hap hfT2 hT2p
      (hclause h2p h2s) e st2 h'
  · injection h with h1 h2
    subst h2
    exact ⟨rfl, fun a _ => rfl⟩


lemma mapErrAux3 (recIdx pml4 vaddr paddr targetLevel : Nat) (st : MapState)
    (hr : recIdx < 512)
    (hp : entryPresent (st.mem (pml4 + recIdx * 8)) = true)
    (hs : entrySize (st.mem (pml4 + recIdx * 8)) = false)
    (hb : entryBase (st.mem (pml4 + recIdx * 8)) = pml4)
    (hni : vaddr / 2 ^ 39 % 512 ≠ recIdx)
    (hnodup : st.free.Nodup)
    (hfb : ∀ g ∈ st.free, g < 2 ^ 40)
    (hInv : levelInv st.mem vaddr st.free 3 pml4 []) :
    ∀ e st2, mapImplRec recIdx pml4 vaddr paddr targetLevel st 3 = .err e st2 →
      st2.free = st.free ∧
      ∀ a, (∀ g ∈ st.free, ¬(g * 4096 ≤ a ∧ a < g * 4096 + 4096)) →
        st2.mem a = st.mem a := by
  obtain ⟨⟨hfp, hap, hlt, _⟩, hclause⟩ := hInv
  intro e st2 h
  have htr1 : translate st.mem pml4 (entryAtLevel recIdx 3 vaddr)
      = some (pml4 + vaddr / 2 ^ 39 % 512 * 8) :=
    translate_ea3 st.mem pml4 recIdx vaddr hr hp hs hb
  have hread : readQ st.mem pml4 (entryAtLevel recIdx 3 vaddr)
      = some (st.mem (pml4 + vaddr / 2 ^ 39 % 512 * 8)) := by
    rw [readQ, htr1]
    rfl
  have hunf : mapImplRec recIdx pml4 vaddr paddr targetLevel st 3
      = mapStepUpper recIdx pml4 vaddr paddr targetLevel 2
          (fun stx => mapImplRec recIdx pml4 vaddr paddr targetLevel stx 2) st := rfl
  rw [hunf, mapStepUpper] at h
  simp only [show (2 + 1 : Nat) = 3 by norm_num] at h
  split at h
  · rename_i heq
    rw [hread] at heq
    exact Option.noConfusion heq
  rename_i entry heq
  rw [hread] at heq
  injection heq with hent
  subst hent
  split_ifs at h with hA hB hC
  · split at h
    · exact MapResult.noConfusion h
    · exact MapResult.noConfusion h
  · -- descend, entry not present: allocation path
    split at h
    · injection h with h1 h2
      subst h2
      exact ⟨rfl, fun a _ => rfl⟩
    · rename_i f rest hfree
      have hw : writeQ st.mem pml4 (entryAtLevel recIdx 3 vaddr)
          (entrySetFlags (entrySetBase 0 (f * 4096)) 3)
          = some (fun a => if a = pml4 + vaddr / 2 ^ 39 % 512 * 8 then
              entrySetFlags (entrySetBase 0 (f * 4096)) 3 else st.mem a) := by
        rw [writeQ, htr1]
      have hfmem : f ∈ st.free := by rw [hfree]; exact List.mem_cons_self f rest
      have hflt : f < 2 ^ 40 := hfb f hfmem
      obtain ⟨hnP, hnS, hnB⟩ := newTableEntry f hflt
      have hreads : ∀ m : Nat → Nat,
          (∀ a, ¬(f * 4096 ≤ a ∧ a < f * 4096 + 4096) →
            m a = (fun a => if a = pml4 + vaddr / 2 ^ 39 % 512 * 8 then
              entrySetFlags (entrySetBase 0 (f * 4096)) 3 else st.mem a) a) →
          m (pml4 + recIdx * 8) = st.mem (pml4 + recIdx * 8) ∧
          m (pml4 + vaddr / 2 ^ 39 % 512 * 8)
            = entrySetFlags (entrySetBase 0 (f * 4096)) 3 := by
        intro m hag
        have hoff1 : recIdx * 8 < 4096 := by omega
        have hoff2 : vaddr / 2 ^ 39 % 512 * 8 < 4096 := by omega
        refine ⟨?_, ?_⟩
        · rw [hag _ (notInFrame pml4 f _ hap (hfp f hfmem) hoff1)]
          simp only
          rw [if_neg (show pml4 + recIdx * 8
            ≠ pml4 + vaddr / 2 ^ 39 % 512 * 8 by omega)]
        · rw [hag _ (notInFrame pml4 f _ hap (hfp f hfmem) hoff2)]
          simp
      have htrmset : ∀ m : Nat → Nat,
          (∀ a, ¬(f * 4096 ≤ a ∧ a < f * 4096 + 4096) →
            m a = (fun a => if a = pml4 + vaddr / 2 ^ 39 % 512 * 8 then
              entrySetFlags (entrySetBase 0 (f * 4096)) 3 else st.mem a) a) →
          ∀ i, i < 512 →
            translate m pml4 (tableAtLevel recIdx 2 vaddr + 8 * i)
              = some (f * 4096 + 8 * i) := by
        intro m hag i hi
        obtain ⟨hrd1, hrd2⟩ := hreads m hag
        obtain ⟨x3, x2, x1, x0, xoff⟩ := eaExt2 recIdx vaddr hr
        obtain ⟨s3, s2, s1, s0, soff⟩ := table_slice (entryAtLevel recIdx 2 vaddr) i hi
        have e3p : entryPresent (m (pml4 + recIdx * 8)) = true := by
          rw [hrd1]; exact hp
        have eb3 : entryBase (m (pml4 + recIdx * 8)) = pml4 := by
          rw [hrd1]; exact hb
        have e2p : entryPresent (m (entryBase (m (pml4 + recIdx * 8))
            + recIdx * 8)) = true := by
          rw [eb3, hrd1]; exact hp
        have e2s : entrySize (m (entryBase (m (pml4 + recIdx * 8))
            + recIdx * 8)) = false := by
          rw [eb3, hrd1]; exact hs
        have eb2 : entryBase (m (entryBase (m (pml4 + recIdx * 8))
            + recIdx * 8)) = pml4 := by
          rw [eb3, hrd1]; exact hb
        have e1p : entryPresent (m (entryBase (m (entryBase (m (pml4 + recIdx * 8))
            + recIdx * 8)) + recIdx * 8)) = true := by
          rw [eb2, hrd1]; exact hp
        have e1s : entrySize (m (entryBase (m (entryBase (m (pml4 + recIdx * 8))
            + recIdx * 8)) + recIdx * 8)) = false := by
          rw [eb2, hrd1]; exact hs
        have eb1 : entryBase (m (entryBase (m (entryBase (m (pml4 + recIdx * 8))
            + recIdx * 8)) + recIdx * 8)) = pml4 := by
          rw [eb2, hrd1]; exact hb
        have e0p : entryPresent (m (entryBase (m (entryBase (m (entryBase
            (m (pml4 + recIdx * 8)) + recIdx * 8)) + recIdx * 8))
            + vaddr / 2 ^ 39 % 512 * 8)) = true := by
          rw [eb1, hrd2]; exact hnP
        have eb0 : entryBase (m (entryBase (m (entryBase (m (entryBase
            (m (pml4 + recIdx * 8)) + recIdx * 8)) + recIdx * 8))
            + vaddr / 2 ^ 39 % 512 * 8)) = f * 4096 := by
          rw [eb1, hrd2]; exact hnB
        have hwk := translate_walk m pml4
          (entryAtLevel recIdx 2 vaddr / 4096 * 4096 + 8 * i)
          recIdx recIdx recIdx (vaddr / 2 ^ 39 % 512)
          (s3.trans x3) (s2.trans x2) (s1.trans x1) (s0.trans x0)
          e3p e2p e2s e1p e1s e0p
        rw [tableAtLevel, hwk, eb0, soff]
      obtain ⟨m2, hm2, hm2prof⟩ := memsetZero_spec
        (fun a => if a = pml4 + vaddr / 2 ^ 39 % 512 * 8 then
          entrySetFlags (entrySetBase 0 (f * 4096)) 3 else st.mem a)
        pml4 (tableAtLevel recIdx 2 vaddr) (f * 4096) (by omega) htrmset
        512 (Nat.le_refl 512)
      split at h
      · rename_i heq1
        rw [hw] at heq1
        exact Option.noConfusion heq1
      rename_i m1 heq1
      rw [hw] at heq1
      injection heq1 with hm1
      subst hm1
      split at h
      · rename_i heq2
        rw [hm2] at heq2
        exact Option.noConfusion heq2
      rename_i m2x heq2
      rw [hm2] at heq2
      injection heq2 with hm2x
      subst hm2x
      split at h
      · exact MapResult.noConfusion h
      · rename_i e3 st3 heq3
        have hag2 : ∀ a, ¬(f * 4096 ≤ a ∧ a < f * 4096 + 4096) →
            m2 a = (fun a => if a = pml4 + vaddr / 2 ^ 39 % 512 * 8 then
              entrySetFlags (entrySetBase 0 (f * 4096)) 3 else st.mem a) a := by
          intro a ha
          rw [hm2prof a, if_neg (by omega)]
        obtain ⟨hrd1, hrd2⟩ := hreads m2 hag2
        have hfrest : ∀ g ∈ rest, g ∈ st.free := by
          intro g hg
          rw [hfree]
          exact List.mem_cons_of_mem f hg
        have hnodup2 : (f :: rest).Nodup := hfree ▸ hnodup
        have hfnotin : f ∉ rest := (List.nodup_cons.mp hnodup2).1
        have hrestnodup : rest.Nodup := (List.nodup_cons.mp hnodup2).2
        have heq3x : mapImplRec recIdx pml4 vaddr paddr targetLevel
            ⟨m2, rest⟩ 2 = .err e3 st3 := heq3
        have hp2 : entryPresent (m2 (pml4 + recIdx * 8)) = true := by
          rw [hrd1]; exact hp
        have hs2 : entrySize (m2 (pml4 + recIdx * 8)) = false := by
          rw [hrd1]; exact hs
        have hb2 : entryBase (m2 (pml4 + recIdx * 8)) = pml4 := by
          rw [hrd1]; exact hb
        have hT2b : (f * 4096 : Nat)
            = entryBase (m2 (pml4 + vaddr / 2 ^ 39 % 512 * 8)) := by
          rw [hrd2]; exact hnB.symm
        have h3p2 : entryPresent (m2 (pml4 + vaddr / 2 ^ 39 % 512 * 8)) = true := by
          rw [hrd2]; exact hnP
        have h3s2 : entrySize (m2 (pml4 + vaddr / 2 ^ 39 % 512 * 8)) = false := by
          rw [hrd2]; exact hnS
        have hInv2 : levelInv m2 vaddr rest 2 (f * 4096) [pml4] := by
          simp only [levelInv]
          refine ⟨⟨?_, by omega, by omega, ?_⟩, ?_⟩
          · intro g hg
            have : g ≠ f := fun hgf => hfnotin (hgf ▸ hg)
            omega
          · simp only [List.mem_singleton]
            exact hfp f hfmem
          · intro hpre _
            have hz : m2 (f * 4096 + indexAtLevel 2 vaddr * 8) = 0 := by
              rw [hm2prof]
              rw [if_pos]
              refine ⟨Nat.le_add_right _ _, ?_, by omega⟩
              have := idxLt512 2 vaddr
              omega
            rw [hz] at hpre
            exact absurd hpre (by decide)
        have hcons := mapErrAux2 recIdx pml4 vaddr paddr targetLevel
          ⟨m2, rest⟩ (f * 4096) hr hp2 hs2 hb2 hni hrestnodup
          (fun g hg => hfb g (hfrest g hg)) hT2b h3p2 h3s2
          (fun g hg => hfp g (hfrest g hg)) hap hInv2 e3 st3 heq3x
        obtain ⟨hfree3, hmem3⟩ := hcons
        have hg3 : ∀ (c off : Nat), c % 4096 = 0 →
            (∀ g ∈ st.free, g * 4096 ≠ c) → off < 4096 →
            st3.mem (c + off) = m2 (c + off) := by
          intro c off hal hnf hoff
          apply hmem3
          intro g hg
          exact notInFrame c g off hal (hnf g (hfrest g hg)) hoff
        have hoff1 : recIdx * 8 < 4096 := by omega
        have hp3 : entryPresent (st3.mem (pml4 + recIdx * 8)) = true := by
          rw [hg3 pml4 _ hap hfp hoff1, hrd1]; exact hp
        have hs3 : entrySize (st3.mem (pml4 + recIdx * 8)) = false := by
          rw [hg3 pml4 _ hap hfp hoff1, hrd1]; exact hs
        have hb3 : entryBase (st3.mem (pml4 + recIdx * 8)) = pml4 := by
          rw [hg3 pml4 _ hap hfp hoff1, hrd1]; exact hb
        have htr2 : translate st3.mem pml4 (entryAtLevel recIdx 3 vaddr)
            = some (pml4 + vaddr / 2 ^ 39 % 512 * 8) :=
          translate_ea3 st3.mem pml4 recIdx vaddr hr hp3 hs3 hb3
        have hw2 : writeQ st3.mem pml4 (entryAtLevel recIdx 3 vaddr)
            (st.mem (pml4 + vaddr / 2 ^ 39 % 512 * 8))
            = some (fun a => if a = pml4 + vaddr / 2 ^ 39 % 512 * 8 then
                st.mem (pml4 + vaddr / 2 ^ 39 % 512 * 8) else st3.mem a) := by
          rw [writeQ, htr2]
        split at h
        · rename_i heq4
          rw [hw2] at heq4
          exact Option.noConfusion heq4
        rename_i m3 heq4
        rw [hw2] at heq4
        injection heq4 with hm3
        subst hm3
        injection h with he hst2
        subst hst2
        constructor
        · show f :: st3.free = st.free
          rw [hfree3, ← hfree]
        · intro a ha
          show (if a = pml4 + vaddr / 2 ^ 39 % 512 * 8 then
              st.mem (pml4 + vaddr / 2 ^ 39 % 512 * 8) else st3.mem a) = st.mem a
          by_cases hax : a = pml4 + vaddr / 2 ^ 39 % 512 * 8
          · rw [if_pos hax, hax]
          · rw [if_neg hax]
            have h1 : st3.mem a = m2 a := by
              apply hmem3
              intro g hg
              exact ha g (hfrest g hg)
            rw [h1, hag2 a (ha f hfmem)]
            simp only
            rw [if_neg hax]
      · exact MapResult.noConfusion h
  · -- descend through the present entry: level 2
    have h3p : entryPresent (st.mem (pml4 + vaddr / 2 ^ 39 % 512 * 8)) = true := by
      simpa using hC
    have h3s : entrySize (st.mem (pml4 + vaddr / 2 ^ 39 % 512 * 8)) = false :=
      sizeAnd_false hB h3p
    have h' : mapImplRec recIdx pml4 vaddr paddr targetLevel st 2 = .err e st2 := h
    exact mapErrAux2 recIdx pml4 vaddr paddr targetLevel st
      (entryBase (st.mem (pml4 + vaddr / 2 ^ 39 % 512 * 8)))
      hr hp hs hb hni hnodup hfb rfl h3p h3s hfp hap
      (hclause h3p h3s) e st2 h'
  · injection h with h1 h2
    subst h2
    exact ⟨rfl, fun a _ => rfl⟩


/-- C6: rollback on failure of the recursive descent. If `map(v, p, L, pfa)`
returns an error — in particular when the allocator is exhausted at a deeper
level — the allocator's free list is exactly what it was before the call
(every intermediate table newly allocated by this call has been freed back),
and every memory location outside the frames the allocator held free before
the call is unchanged (so every entry that pointed to a fresh table has been
restored to its prior value and no partial intermediate structure remains
reachable). The hypotheses state that the recursive slot `recIdx` of the
PML4 points back to the PML4 itself, that `v` does not address the recursive
slot, and that the present page-table chain for `v` is made of distinct
table frames disjoint from the allocator's free frames (`levelInv`). -/
theorem mapRollbackOnError (recIdx pml4 vaddr paddr level : Nat) (st : MapState)
    (hr : recIdx < 512)
    (hp : entryPresent (st.mem (pml4 + recIdx * 8)) = true)
    (hs : entrySize (st.mem (pml4 + recIdx * 8)) = false)
    (hb : entryBase (st.mem (pml4 + recIdx * 8)) = pml4)
    (hni : vaddr / 2 ^ 39 % 512 ≠ recIdx)
    (hnodup : st.free.Nodup)
    (hfb : ∀ g ∈ st.free, g < 2 ^ 40)
    (hInv : levelInv st.mem vaddr st.free 3 pml4 []) :
    ∀ e st2, mapVirt recIdx pml4 vaddr paddr level st = .err e st2 →
      st2.free = st.free ∧
      ∀ a, (∀ g ∈ st.free, ¬(g * 4096 ≤ a ∧ a < g * 4096 + 4096)) →
        st2.mem a = st.mem a := by
  intro e st2 h
  rw [mapVirt] at h
  split_ifs at h with h1 h2
  · injection h with he hst
    subst hst
    exact ⟨rfl, fun a _ => rfl⟩
  · exact mapErrAux3 recIdx pml4 vaddr paddr level st hr hp hs hb hni
      hnodup hfb hInv e st2 h

/-- Witness for the C6 rollback theorem: mapping virtual 0 at level 0 over
`memChainToPD` with an exhausted allocator fails with `outOfMemory` at the
missing PT, and the theorem's conclusion is realised at that input: the
free list and all non-free memory are as before the call. -/
theorem mapRollbackOnErrorWitness :
    (MapState.mk memChainToPD []).free = (MapState.mk memChainToPD []).free ∧
    ∀ a, (∀ g ∈ (MapState.mk memChainToPD []).free,
        ¬(g * 4096 ≤ a ∧ a < g * 4096 + 4096)) →
      (MapState.mk memChainToPD []).mem a = (MapState.mk memChainToPD []).mem a := by
  have hInvP : levelInv memChainToPD 0 ([] : List Nat) 3 4096 [] := by
    simp only [levelInv]
    refine ⟨⟨by simp, by decide, by decide, by simp⟩, ?_⟩
    intro _ _
    refine ⟨⟨by simp, by decide, by decide, by decide⟩, ?_⟩
    intro _ _
    refine ⟨⟨by simp, by decide, by decide, by decide⟩, ?_⟩
    intro hpre _
    exact absurd hpre (by decide)
  exact mapRollbackOnError 510 4096 0 0 0 ⟨memChainToPD, []⟩
    (by decide) (by decide) (by decide) (by decide) (by decide)
    List.nodup_nil (by simp) hInvP
    MapError.outOfMemory ⟨memChainToPD, []⟩ rfl

end Learnos
